import Mathlib

/-!
myInstructor 2.0 — `static/js/main.js`

A shallow embedding of the browser-side helpers of `static/js/main.js` and the
properties its specification states about them.

Conventions of the embedding

* A JavaScript string is a Lean `String`; a substring is handled through its
  list of characters.
* A `Date` is its time value: an integer number of milliseconds since the
  epoch, or `none` for an *Invalid Date*.  A JavaScript number that may be `NaN`
  is an `Option Int`, `none` standing for `NaN`.  The quantities the code divides
  are integers far below `2 ^ 53`, so `Math.floor (x / c)` is integer floor
  division.
* What the browser supplies and the file only calls (`checkValidity`,
  `validationMessage`, `Date` parsing, `parseFloat`, `trim`, `localeCompare`,
  the enumeration order of an object's keys, the timer queue) is a parameter of
  the definitions that use it.
* Every function that changes the page takes the page state and returns the
  new one.
-/

namespace MyInstructor

/-! ## Numbers that may be `NaN` -/

/-- A JavaScript number restricted to the integers, `none` being `NaN`. -/
abbrev JSNumber := Option Int

/-- The operator `a - b`: `NaN` as soon as one operand is. -/
def JSNumber.sub (a b : JSNumber) : JSNumber :=
  match a, b with
  | some x, some y => some (x - y)
  | _, _ => none

/-- The expression `Math.floor(a / c)` for a positive integer constant `c`
(`Int` division by a positive literal rounds towards minus infinity). -/
def JSNumber.floorDiv (a : JSNumber) (c : Int) : JSNumber :=
  a.map (fun x => x / c)

/-- The comparison `a < c`: false when `a` is `NaN`. -/
def JSNumber.lt (a : JSNumber) (c : Int) : Bool :=
  match a with
  | some x => decide (x < c)
  | none => false

/-- The comparison `a > c`: false when `a` is `NaN`. -/
def JSNumber.gt (a : JSNumber) (c : Int) : Bool :=
  match a with
  | some x => decide (x > c)
  | none => false

/-- The text a template literal gives a number. -/
def JSNumber.text (a : JSNumber) : String :=
  match a with
  | some x => toString x
  | none => "NaN"

/-! ## `formatRelativeTime` (lines 148-165) -/

/-- The function `formatRelativeTime(date)`, with the value `now` of `new Date()`
made an argument.  `date` is the time value of the `Date` passed in, `none` for
an Invalid Date. -/
def formatRelativeTime (now : Int) (date : Option Int) : String :=
  let diffInSeconds := JSNumber.floorDiv (JSNumber.sub (some now) date) 1000
  if diffInSeconds.lt 60 then
    "Just now"
  else if diffInSeconds.lt 3600 then
    let minutes := diffInSeconds.floorDiv 60
    minutes.text ++ " minute" ++ (if minutes.gt 1 then "s" else "") ++ " ago"
  else if diffInSeconds.lt 86400 then
    let hours := diffInSeconds.floorDiv 3600
    hours.text ++ " hour" ++ (if hours.gt 1 then "s" else "") ++ " ago"
  else
    let days := diffInSeconds.floorDiv 86400
    days.text ++ " day" ++ (if days.gt 1 then "s" else "") ++ " ago"

/-- The string the specification writes `N unit(s) ago`: the count, the unit,
an `s` exactly when the count exceeds one. -/
def agoText (n : Int) (unit : String) : String :=
  toString n ++ " " ++ unit ++ (if n > 1 then "s" else "") ++ " ago"

/-- The seconds between two instants as the specification writes them:
`floor ((now - date) / 1000)` over the rationals. -/
def elapsedSeconds (now date : Int) : Int := ⌊((now - date : Int) : ℚ) / 1000⌋

/-! ## `updateTimestamps` (lines 137-146) -/

/-- An element of the page as `updateTimestamps` sees it: its `data-timestamp`
attribute (`none` when the element has no such attribute) and its text. -/
structure StampedElement where
  dataTimestamp : Option String
  textContent : String
deriving DecidableEq, Repr

/-- The body of the `forEach` of `updateTimestamps` on one element.  An element
without the attribute is not selected by `[data-timestamp]`; the guard
`if (timestamp)` is false for the empty string only.  `parseDate` is
`new Date(string)`: `none` when the string is not a date. -/
def updateTimestamp (parseDate : String → Option Int) (now : Int)
    (element : StampedElement) : StampedElement :=
  match element.dataTimestamp with
  | none => element
  | some timestamp =>
    if timestamp ≠ "" then
      { element with textContent := formatRelativeTime now (parseDate timestamp) }
    else
      element

/-- The function `updateTimestamps()` on the elements of the document. -/
def updateTimestamps (parseDate : String → Option Int) (now : Int)
    (document : List StampedElement) : List StampedElement :=
  document.map (updateTimestamp parseDate now)

/-! ## `utils.formatPhoneNumber` (lines 230-245) -/

/-- The class `\d` of a regular expression without the `u` flag. -/
def isDigit (c : Char) : Bool := c.isDigit

/-- Matching, at the start of `s`, a pattern made of the groups
`(\d{n₁})(\d{n₂})…`: the captured groups and what follows the match. -/
def matchGroups : List Nat → List Char → Option (List (List Char) × List Char)
  | [], s => some ([], s)
  | n :: ns, s =>
    if n ≤ s.length ∧ (s.take n).all isDigit then
      (matchGroups ns (s.drop n)).map (fun r => (s.take n :: r.1, r.2))
    else
      none

/-- The call `s.replace(/(\d{n₁})(\d{n₂})…/, template)`: the leftmost match is
replaced by the template filled with its groups, the rest of `s` is kept. -/
def replaceGroups (sizes : List Nat) (template : List (List Char) → List Char) :
    List Char → List Char
  | [] =>
    match matchGroups sizes [] with
    | some (groups, rest) => template groups ++ rest
    | none => []
  | c :: cs =>
    match matchGroups sizes (c :: cs) with
    | some (groups, rest) => template groups ++ rest
    | none => c :: replaceGroups sizes template cs

/-- The replacement text `'($1) $2-$3'`. -/
def templateLocal (groups : List (List Char)) : List Char :=
  ['('] ++ groups.getD 0 [] ++ [')', ' '] ++ groups.getD 1 [] ++ ['-'] ++ groups.getD 2 []

/-- The replacement text `'+$1 ($2) $3-$4'`. -/
def templateCountry (groups : List (List Char)) : List Char :=
  ['+'] ++ groups.getD 0 [] ++ [' ', '('] ++ groups.getD 1 [] ++ [')', ' ']
    ++ groups.getD 2 [] ++ ['-'] ++ groups.getD 3 []

/-- The expression `phone.replace(/\D/g, '')`: every character that is not a
digit is removed. -/
def removeNonDigits (phone : String) : String :=
  String.mk (phone.data.filter (fun c => isDigit c))

/-- The function `utils.formatPhoneNumber(phone)` on a string. -/
def formatPhoneNumber (phone : String) : String :=
  if phone = "" then ""
  else
    let digits := removeNonDigits phone
    if digits.length = 10 then
      String.mk (replaceGroups [3, 3, 4] templateLocal digits.data)
    else if digits.length = 11 ∧ digits.data.head? = some '1' then
      String.mk (replaceGroups [1, 3, 3, 4] templateCountry digits.data)
    else
      phone

/-- The characters `digits[i..j]` of the specification, as a list. -/
def slice (digits : List Char) (i j : Nat) : List Char :=
  (digits.drop i).take (j - i)

/-- The substring `s[i..j]` of the specification. -/
def substring (s : String) (i j : Nat) : String :=
  String.mk (slice s.data i j)

/-! ## Field and form validation (lines 66-116)

Fields and the nodes that hold them are named by numbers.  What validation
reads and never changes is a `Document`; what it changes is a `Page`.  The
subtree of a node is the list of its elements in document order, which is what
`querySelector` searches and what `appendChild` extends at the end; the nodes
that hold fields are not nested in one another, so what is done to the subtree
of one leaves the others as they are. -/

/-- An element of the subtree of a field's parent node, the fields themselves
apart: its class tokens and its text.  Error-message elements are leaves. -/
structure Element where
  classList : List String
  textContent : String
deriving DecidableEq, Repr

/-- What validation reads of the document: `field.parentNode`, the result of
`field.checkValidity()` and `field.validationMessage`, for each field. -/
structure Document where
  parentNode : Nat → Nat
  checkValidity : Nat → Bool
  validationMessage : Nat → String

/-- What validation changes: the class tokens of each field, and for each node
the elements of its subtree in document order. -/
structure Page where
  classList : Nat → List String
  subtree : Nat → List Element

/-- The method `classList.add(token)`: a token already present is not repeated. -/
def classListAdd (tokens : List String) (token : String) : List String :=
  if token ∈ tokens then tokens else tokens ++ [token]

/-- The method `classList.remove(token)`. -/
def classListRemove (tokens : List String) (token : String) : List String :=
  tokens.filter (fun t => t ≠ token)

/-- The selector `.invalid-feedback` matches the element. -/
def isFeedback (e : Element) : Bool :=
  e.classList.contains "invalid-feedback"

/-- The assignment `existingError.textContent = message`, `existingError` being
the first element of the subtree the selector matches. -/
def setFeedbackText (message : String) : List Element → List Element
  | [] => []
  | e :: rest =>
    if isFeedback e then { e with textContent := message } :: rest
    else e :: setFeedbackText message rest

/-- The function `showFieldError(field, message)`. -/
def showFieldError (doc : Document) (field : Nat) (message : String) (page : Page) : Page :=
  let parent := doc.parentNode field
  match (page.subtree parent).find? isFeedback with
  | some _ =>
    let nodes := setFeedbackText message (page.subtree parent)
    { page with subtree := Function.update page.subtree parent nodes }
  | none =>
    let nodes := page.subtree parent ++ [⟨["invalid-feedback"], message⟩]
    { page with subtree := Function.update page.subtree parent nodes }

/-- The function `hideFieldError(field)`: the first element the selector
matches, when there is one, is removed. -/
def hideFieldError (doc : Document) (field : Nat) (page : Page) : Page :=
  let parent := doc.parentNode field
  let nodes := (page.subtree parent).eraseP isFeedback
  { page with subtree := Function.update page.subtree parent nodes }

/-- The function `validateField(field)`: the value returned and the page left. -/
def validateField (doc : Document) (field : Nat) (page : Page) : Bool × Page :=
  let isValid := doc.checkValidity field
  if isValid then
    let tokens := classListAdd (classListRemove (page.classList field) "is-invalid") "is-valid"
    (isValid, hideFieldError doc field
      { page with classList := Function.update page.classList field tokens })
  else
    let tokens := classListAdd (classListRemove (page.classList field) "is-valid") "is-invalid"
    (isValid, showFieldError doc field (doc.validationMessage field)
      { page with classList := Function.update page.classList field tokens })

/-- The loop `inputs.forEach(input => { if (!validateField(input)) isValid = false })`
of `validateForm`, from a value of `isValid` and a page. -/
def validateLoop (doc : Document) (inputs : List Nat) (state : Bool × Page) : Bool × Page :=
  inputs.foldl
    (fun state input =>
      let result := validateField doc input state.2
      (if !result.1 then false else state.1, result.2))
    state

/-- The function `validateForm(form)`; `inputs` are the fields
`form.querySelectorAll('input[required], select[required], textarea[required]')`
returns, in document order. -/
def validateForm (doc : Document) (inputs : List Nat) (page : Page) : Bool × Page :=
  validateLoop doc inputs (true, page)

/-- The number of error-message elements in a subtree. -/
def feedbackCount (nodes : List Element) : Nat :=
  nodes.countP isFeedback

/-- The texts of the error-message elements of a subtree, in document order. -/
def feedbackTexts (nodes : List Element) : List String :=
  (nodes.filter isFeedback).map (fun e => e.textContent)

/-- The field carries the valid styling and not the invalid one. -/
def MarkedValid (page : Page) (field : Nat) : Prop :=
  "is-valid" ∈ page.classList field ∧ "is-invalid" ∉ page.classList field

/-- The field carries the invalid styling and not the valid one. -/
def MarkedInvalid (page : Page) (field : Nat) : Prop :=
  "is-invalid" ∈ page.classList field ∧ "is-valid" ∉ page.classList field

/-- The styling a field carries agrees with its validity. -/
def MarkedByValidity (doc : Document) (page : Page) (field : Nat) : Prop :=
  (doc.checkValidity field = true → MarkedValid page field) ∧
  (doc.checkValidity field = false → MarkedInvalid page field)

/-- The subtree holds an error-message element with this text. -/
def ShowsMessage (nodes : List Element) (message : String) : Prop :=
  ∃ e ∈ nodes, isFeedback e = true ∧ e.textContent = message

/-- A document with one node, 0, that holds every field; every field is valid. -/
def allValidDocument : Document :=
  ⟨fun _ => 0, fun _ => true, fun _ => ""⟩

/-- A page each of whose nodes already holds two error-message elements. -/
def twoMessagesPage : Page :=
  ⟨fun _ => [],
   fun _ => [⟨["invalid-feedback"], "Required"⟩, ⟨["invalid-feedback"], "Too short"⟩]⟩

/-- A document with one node, 0, that holds every field; field 1 is invalid,
with the message "Please fill out this field.", every other field is valid. -/
def sharedParentDocument : Document :=
  ⟨fun _ => 0, fun f => decide (f ≠ 1), fun _ => "Please fill out this field."⟩

/-- A page without classes on its fields, each of whose nodes holds a label and
no error-message element. -/
def freshPage : Page :=
  ⟨fun _ => [], fun _ => [⟨["form-label"], "Name"⟩]⟩

/-- A page each of whose nodes holds a label and one error-message element. -/
def oneMessagePage : Page :=
  ⟨fun _ => ["is-invalid"],
   fun _ => [⟨["form-label"], "Name"⟩, ⟨["invalid-feedback"], "Old"⟩]⟩

/-! ## Draft auto-save (lines 431-464)

A form is the list of its controls, in document order, each with its `name`
attribute (empty when it has none), its current value, its kind and whether
`FormData` lists it.  The controls of a form are inside the form element, no
other element inside it carries a `name` attribute, and no control has an `id`
attribute that is one of the words `id`, `getAttribute` and `querySelector`.
`JSON.stringify` followed by `JSON.parse` gives back an object with the same
properties, a `File` having become an empty object, so local storage is
modelled as holding the object itself; the order in which the properties of an
object are enumerated, and whether local storage accepts a write, are
parameters. -/

/-- The kinds of control the model tells apart: `text` is a control whose
`value`, once a string is assigned to it, is that string, and whose value
`FormData` lists as it stands; `file` is a file input. -/
inductive ControlKind where
  | text
  | file
deriving DecidableEq, Repr

/-- A control of a form.  `listed` says that `new FormData(form)` lists the
control when it has a name: it is enabled and, if it is a checkbox or a radio
button, checked. -/
structure FormField where
  name : String
  value : String
  kind : ControlKind
  listed : Bool
deriving DecidableEq, Repr

/-- A form: its `id` (empty when it has none), its `data-autosave` attribute
and its controls. -/
structure Form where
  id : String
  dataAutosave : Option String
  fields : List FormField
deriving DecidableEq, Repr

/-- A control of the form has this name, so that the property of this name of
the form element is that control and not the built-in one. -/
def shadows (form : Form) (property : String) : Bool :=
  form.fields.any (fun f => f.name = property)

/-- The value of `form.id || form.getAttribute('data-autosave')` as the template
literal prints it.  The result is `none` when a control shadows the property
read: `form.id` is then that control, and `form.getAttribute` is no function
(a `TypeError`). -/
def formId (form : Form) : Option String :=
  if shadows form "id" then none
  else if form.id ≠ "" then some form.id
  else if shadows form "getAttribute" then none
  else
    match form.dataAutosave with
    | some value => some value
    | none => some "null"

/-- A value of a draft once it has been through JSON: a string, or the empty
object a `File` is stored as. -/
inductive DraftValue where
  | text (s : String)
  | object
deriving DecidableEq, Repr

/-- The string an assignment to `value` converts the draft value to. -/
def DraftValue.toText : DraftValue → String
  | .text s => s
  | .object => "[object Object]"

/-- An object with string keys: its own properties in creation order, no key
twice. -/
abbrev Draft := List (String × DraftValue)

/-- The assignment `data[key] = value` on an object created by `{}`.  The key
`__proto__` names the prototype accessor and creates no property. -/
def Draft.assign (data : Draft) (key : String) (value : DraftValue) : Draft :=
  if key = "__proto__" then data
  else if data.any (fun p => p.1 = key) then
    data.map (fun p => if p.1 = key then (key, value) else p)
  else
    data ++ [(key, value)]

/-- The entries of `new FormData(form)`: a control without a name, or one that
is not listed, is left out; a file input gives a `File`. -/
def formEntries (form : Form) : List (String × DraftValue) :=
  (form.fields.filter (fun f => f.listed && decide (f.name ≠ ""))).map
    (fun f =>
      (f.name,
        match f.kind with
        | .text => DraftValue.text f.value
        | .file => DraftValue.object))

/-- The object `saveFormData` builds from the entries. -/
def draftOf (form : Form) : Draft :=
  (formEntries form).foldl (fun data entry => Draft.assign data entry.1 entry.2) []

/-- Local storage: the object stored under each key, if any. -/
abbrev LocalStorage := String → Option Draft

/-- The function `saveFormData(form)` on local storage (the toast it shows is
not part of the model).  `accepts` says whether `localStorage.setItem` takes
the write; the result is `none` when it does not (a `QuotaExceededError`) and
when `formId` is. -/
def saveFormData (accepts : LocalStorage → String → Draft → Bool) (storage : LocalStorage)
    (form : Form) : Option LocalStorage :=
  match formId form with
  | none => none
  | some id =>
    if accepts storage ("autosave_" ++ id) (draftOf form) then
      some (Function.update storage ("autosave_" ++ id) (some (draftOf form)))
    else
      none

/-- The function `clearSavedFormData(formId)`. -/
def clearSavedFormData (storage : LocalStorage) (formId : String) : LocalStorage :=
  Function.update storage ("autosave_" ++ formId) none

/-- The selector `[name="key"]` built from the key is the plain attribute
selector for that name: the key holds no double quote, backslash, line break
or null character. -/
def selectorSafe (key : String) : Bool :=
  key.data.all
    (fun c => c ≠ '"' && c ≠ '\\' && c ≠ '\n' && c ≠ '\r' && c ≠ '\x0c' && c ≠ '\x00')

/-- The assignment `input.value = value` on one control.  A file input accepts
the empty string only and raises an `InvalidStateError` otherwise (`none`). -/
def assignValue (field : FormField) (value : DraftValue) : Option FormField :=
  match field.kind with
  | .text => some { field with value := value.toText }
  | .file => if value.toText = "" then some { field with value := "" } else none

/-- The assignment `input.value = value` on the element
`form.querySelector('[name="key"]')` finds: the first control with that name,
nothing when there is none. -/
def setFirstNamed (key : String) (value : DraftValue) : List FormField → Option (List FormField)
  | [] => some []
  | f :: rest =>
    if f.name = key then (assignValue f value).map (fun g => g :: rest)
    else (setFirstNamed key value rest).map (fun fields => f :: fields)

/-- The form with other values in its controls. -/
def Form.withFields (form : Form) (fields : List FormField) : Form :=
  { form with fields := fields }

/-- The body of the `forEach` of `loadFormData` for one key of the draft.  The
result is `none` when a control shadows `form.querySelector` (a `TypeError`),
when the assignment raises, and when the key is not `selectorSafe`: the
selector is then malformed or selects by another rule. -/
def loadEntry (form : Form) (entry : String × DraftValue) : Option Form :=
  if shadows form "querySelector" then none
  else if selectorSafe entry.1 then
    (setFirstNamed entry.1 entry.2 form.fields).map (fun fields => form.withFields fields)
  else
    none

/-- The function `loadFormData(form)`.  `ownEntries` gives the properties of the
parsed object in the order `Object.keys` enumerates them. -/
def loadFormData (ownEntries : Draft → Draft) (storage : LocalStorage) (form : Form) :
    Option Form :=
  match formId form with
  | none => none
  | some id =>
    match storage ("autosave_" ++ id) with
    | none => some form
    | some data => (ownEntries data).foldlM loadEntry form

/-- The named controls of the form have pairwise distinct names. -/
def NamedDistinct (form : Form) : Prop :=
  ((form.fields.filter (fun f => decide (f.name ≠ ""))).map (fun f => f.name)).Nodup

/-- The named controls of the form are text controls. -/
def NamedText (form : Form) : Prop :=
  ∀ f ∈ form.fields, f.name ≠ "" → f.kind = ControlKind.text

/-- The names of the controls of the form hold no double quote, backslash,
line break or null character. -/
def NamesSafe (form : Form) : Prop :=
  ∀ f ∈ form.fields, ∀ c ∈ f.name.data,
    c ≠ '"' ∧ c ≠ '\\' ∧ c ≠ '\n' ∧ c ≠ '\r' ∧ c ≠ '\x0c' ∧ c ≠ '\x00'

/-- No control of the form is named `id`, `getAttribute` or `querySelector`. -/
def NoShadowing (form : Form) : Prop :=
  ∀ f ∈ form.fields, f.name ≠ "id" ∧ f.name ≠ "getAttribute" ∧ f.name ≠ "querySelector"

/-- The identifier of a form in the words of C6: its `id`, or else its
`data-autosave` attribute. -/
def identifier (form : Form) : Option String :=
  if form.id ≠ "" then some form.id else form.dataAutosave

/-- The name occurs in the draft saved from the form: a listed control of the
form has it, and it is neither empty nor `__proto__`. -/
def InDraft (saved : Form) (name : String) : Prop :=
  ∃ s ∈ saved.fields, s.listed = true ∧ s.name ≠ "" ∧ s.name ≠ "__proto__" ∧ s.name = name

/-- The property of C6.  `saved` is the form as it was saved, `before` the
form `loadFormData` is run on and `after` the form it leaves: the controls are
the same, every control whose name occurs in the draft has the value the
control of that name had when saved, and every other control has kept its
value. -/
def RestoresDraft (saved before after : Form) : Prop :=
  after.fields.map (fun f => f.name) = before.fields.map (fun f => f.name) ∧
  ∀ p ∈ before.fields.zip after.fields,
    (∀ s ∈ saved.fields, s.listed = true → s.name ≠ "" → s.name ≠ "__proto__" →
      s.name = p.1.name → p.2.value = s.value) ∧
    (¬ InDraft saved p.1.name → p.2.value = p.1.value)

/-- A form with two text controls of the same name, as filled in. -/
def twoChoicesSaved : Form :=
  ⟨"enrol", none, [⟨"choice", "morning", .text, true⟩, ⟨"choice", "evening", .text, true⟩]⟩

/-- The same form as the page renders it afresh. -/
def twoChoicesFresh : Form :=
  ⟨"enrol", none, [⟨"choice", "", .text, true⟩, ⟨"choice", "", .text, true⟩]⟩

/-- A form with distinct names, as filled in: two text controls, a control
without a name, a control named `__proto__` and an unchecked checkbox. -/
def enrolSaved : Form :=
  ⟨"", some "enrol",
    [⟨"name", "Tariro", .text, true⟩, ⟨"", "x", .text, true⟩,
     ⟨"phone", "5551234567", .text, true⟩, ⟨"__proto__", "p", .text, true⟩,
     ⟨"notify", "on", .text, false⟩]⟩

/-- The same form as the page renders it afresh, with one more control. -/
def enrolFresh : Form :=
  ⟨"", some "enrol",
    [⟨"name", "", .text, true⟩, ⟨"", "", .text, true⟩, ⟨"phone", "", .text, true⟩,
     ⟨"__proto__", "", .text, true⟩, ⟨"notify", "on", .text, false⟩,
     ⟨"notes", "n/a", .text, true⟩]⟩

/-- An empty local storage. -/
def emptyStorage : LocalStorage := fun _ => none

/-- A local storage that accepts every write. -/
def unlimited : LocalStorage → String → Draft → Bool := fun _ _ _ => true

/-- Saving one form and loading into another: `none` when either raises. -/
def saveThenLoad (ownEntries : Draft → Draft) (accepts : LocalStorage → String → Draft → Bool)
    (storage : LocalStorage) (saved before : Form) : Option Form :=
  match saveFormData accepts storage saved with
  | none => none
  | some stored => loadFormData ownEntries stored before

/-- The control with the text as its value when it has the name, unchanged
otherwise. -/
def setNamed (key text : String) (field : FormField) : FormField :=
  if field.name = key then { field with value := text } else field

/-- What the entries of a draft do to one text control when each entry is
applied to every control of its name. -/
def applyEntries (entries : Draft) (field : FormField) : FormField :=
  entries.foldl (fun f entry => setNamed entry.1 entry.2.toText f) field

/-! ## Table sorting (lines 352-388)

A table is the class tokens of the `th` cells of its header row and, for each
`tr` of its body, the texts of the cells of the row.  A number that
`parseFloat` returns is a rational, `none` standing for `NaN` (the texts
`Infinity` and `-Infinity` are outside the model); the sign of the difference
of two such numbers is the sign of their exact difference.
`Array.prototype.sort` is stable and is given as insertion sort on the relation
"the comparator does not return a positive number". -/

/-- What the browser supplies to the comparator. -/
structure SortPlatform where
  trim : String → String
  parseFloat : String → Option ℚ
  localeCompare : String → String → Int

/-- A table: the class tokens of each header cell, the cell texts of each body
row. -/
structure Table where
  headers : List (List String)
  rows : List (List String)
deriving DecidableEq, Repr

/-- The comparator of `rows.sort` on two rows that have a cell in the column. -/
def compareRows (env : SortPlatform) (columnIndex : Nat) (direction : Int)
    (a b : List String) : ℚ :=
  let aValue := env.trim (a.getD columnIndex "")
  let bValue := env.trim (b.getD columnIndex "")
  match env.parseFloat aValue, env.parseFloat bValue with
  | some aNum, some bNum => (aNum - bNum) * direction
  | _, _ => (env.localeCompare aValue bValue * direction : Int)

/-- The relation the sort orders by: the comparator puts `a` no later than `b`. -/
def rowLE (env : SortPlatform) (columnIndex : Nat) (direction : Int) (a b : List String) :
    Prop :=
  compareRows env columnIndex direction a b ≤ 0

instance (env : SortPlatform) (columnIndex : Nat) (direction : Int) :
    DecidableRel (rowLE env columnIndex direction) :=
  fun a b => inferInstanceAs (Decidable (compareRows env columnIndex direction a b ≤ 0))

/-- The function `sortTable(table, header)`, `header` being the position of the
clicked cell in the header row.  The result is `none` when the comparator
reads a cell of a row that has none in the column (a `TypeError`), which
happens as soon as there are two rows to compare. -/
def sortTable (env : SortPlatform) (table : Table) (header : Nat) : Option Table :=
  let columnIndex := header
  let isAscending := (table.headers.getD header []).contains "sort-asc"
  let direction : Int := if isAscending then -1 else 1
  let cleared := table.headers.map
    (fun th => classListRemove (classListRemove th "sort-asc") "sort-desc")
  let marked := cleared.set header
    (classListAdd (cleared.getD header []) (if isAscending then "sort-desc" else "sort-asc"))
  if 2 ≤ table.rows.length ∧ table.rows.any (fun row => row[columnIndex]? = none) then
    none
  else
    some ⟨marked, table.rows.insertionSort (rowLE env columnIndex direction)⟩

/-- The number in the column of a row (0 when the cell does not parse). -/
def numericKey (env : SortPlatform) (columnIndex : Nat) (row : List String) : ℚ :=
  (env.parseFloat (env.trim (row.getD columnIndex ""))).getD 0

/-- Every row has a cell in the column and the cell parses as a number. -/
def AllNumeric (env : SortPlatform) (columnIndex : Nat) (rows : List (List String)) : Prop :=
  ∀ row ∈ rows, row[columnIndex]? ≠ none ∧
    env.parseFloat (env.trim (row.getD columnIndex "")) ≠ none

/-- The rows that `sortTable` leaves, `[]` when it raises. -/
def sortedRows (env : SortPlatform) (table : Table) (header : Nat) : List (List String) :=
  match sortTable env table header with
  | some t => t.rows
  | none => []

/-- A platform for examples: `parseFloat` knows the texts 2, 9 and 10. -/
def examplePlatform : SortPlatform :=
  ⟨fun s => s,
   fun s => if s = "2" then some 2 else if s = "9" then some 9
     else if s = "10" then some 10 else none,
   fun _ _ => 0⟩

/-- A table with the columns name and score, sorted on neither. -/
def scoreTable : Table :=
  ⟨[["sort-desc"], []], [["Rudo", "10"], ["Farai", "9"], ["Chipo", "2"], ["Tendai", "9"]]⟩

/-! ## `debounce` (lines 418-429)

The timer queue of the browser is part of the state: `setTimeout` adds a timer
under a fresh id, `clearTimeout` removes the timer of the id it is given, and a
timer leaves the queue when the browser runs its callback.  Time is a natural
number of milliseconds.  The browser runs timer callbacks only between scripts,
and never before a timer is ready: what happens is a schedule of events, each
either a call of the debounced function or a turn of the event loop in which
the timers ready by then are run.  Calls made by one script, or while the event
loop is busy, follow one another with no turn in between.  `func` itself does
not call the debounced function. -/

/-- The delay `setTimeout` applies for the argument `wait`: the argument is
converted to a signed 32-bit integer, and a negative result counts as 0. -/
def timerDelay (wait : Nat) : Nat :=
  if wait % 2 ^ 32 < 2 ^ 31 then wait % 2 ^ 32 else 0

/-- A timer set by `setTimeout(later, wait)`: its id, the time from which the
browser may run it and the arguments `later` has closed over. -/
structure Timer (α : Type) where
  id : Nat
  ready : Nat
  args : α

/-- The state of one debounced function: the variable `timeout` (`none` while
undefined), the next timer id the browser hands out, the timers set and not
yet run or cleared, and the arguments `func` has been invoked with, oldest
first. -/
structure Debounced (α : Type) where
  timeout : Option Nat
  nextId : Nat
  pending : List (Timer α)
  invoked : List α

/-- The call `debounce(func, wait)`: the state the function it returns starts
from, `timeout` undefined, no timer set, `func` not yet invoked. -/
def debounce {α : Type} : Debounced α :=
  ⟨none, 0, [], []⟩

/-- The call `clearTimeout(timeout)` on the timer queue. -/
def clearTimeout {α : Type} (timeout : Option Nat) (pending : List (Timer α)) :
    List (Timer α) :=
  pending.filter (fun t => decide (some t.id ≠ timeout))

/-- The call `executedFunction(...args)`: the pending timer is cleared and a new
one is set, which the browser may run from the time `ready` on. -/
def executedFunction {α : Type} (ready : Nat) (args : α) (s : Debounced α) : Debounced α :=
  { timeout := some s.nextId
    nextId := s.nextId + 1
    pending := clearTimeout s.timeout s.pending ++ [⟨s.nextId, ready, args⟩]
    invoked := s.invoked }

/-- The callback `later` of the timer `t`, run by the browser once `t` has left
the queue: `clearTimeout(timeout); func(...args)`. -/
def later {α : Type} (t : Timer α) (s : Debounced α) : Debounced α :=
  { s with
    pending := clearTimeout s.timeout (s.pending.filter (fun u => decide (u.id ≠ t.id)))
    invoked := s.invoked ++ [t.args] }

/-- The timer the browser runs next in a turn at time `now`: among the timers
ready, the one ready first, the one set first among equals. -/
def nextDue {α : Type} (now : Nat) (pending : List (Timer α)) : Option (Timer α) :=
  (pending.filter (fun t => decide (t.ready ≤ now))).foldl
    (fun best t =>
      match best with
      | none => some t
      | some b => if t.ready < b.ready then some t else some b)
    none

/-- The browser runs the timers that are ready at time `now`, at most `fuel` of
them. -/
def runTimers {α : Type} (now : Nat) : Nat → Debounced α → Debounced α
  | 0, s => s
  | fuel + 1, s =>
    match nextDue now s.pending with
    | none => s
    | some t => runTimers now fuel (later t s)

/-- A turn of the event loop at time `now`: every timer ready by then runs (a
callback sets no timer, so the length of the queue is fuel enough). -/
def advance {α : Type} (now : Nat) (s : Debounced α) : Debounced α :=
  runTimers now s.pending.length s

/-- An event of a schedule: a call of the debounced function at time `now` with
`args`, whose timer is ready at time `ready`; or a turn of the event loop at
time `now`. -/
inductive Event (α : Type) where
  | call (now ready : Nat) (args : α)
  | turn (now : Nat)

/-- The time of an event. -/
def Event.time {α : Type} : Event α → Nat
  | .call now _ _ => now
  | .turn now => now

/-- What one event does to the state. -/
def step {α : Type} (s : Debounced α) : Event α → Debounced α
  | .call _ ready args => executedFunction ready args s
  | .turn now => advance now s

/-- The state after a schedule of events. -/
def runEvents {α : Type} (events : List (Event α)) (s : Debounced α) : Debounced α :=
  events.foldl step s

/-- A schedule for `debounce(func, wait)`: the events are in order of time, and
the timer of each call is ready no earlier than the delay after the call. -/
def Schedule {α : Type} (wait : Nat) (events : List (Event α)) : Prop :=
  events.Pairwise (fun a b => a.time ≤ b.time) ∧
  ∀ now ready args, Event.call now ready args ∈ events → now + timerDelay wait ≤ ready

/-- The time of the first call among the events, if there is one. -/
def nextCallTime {α : Type} : List (Event α) → Option Nat
  | [] => none
  | .call now _ _ :: _ => some now
  | .turn _ :: rest => nextCallTime rest

/-- Before the next call, the event loop has a turn at or after `ready`. -/
def runsBeforeNextCall {α : Type} (ready : Nat) : List (Event α) → Bool
  | [] => false
  | .call _ _ _ :: _ => false
  | .turn now :: rest => decide (ready ≤ now) || runsBeforeNextCall ready rest

/-- The arguments of the calls whose timer gets a turn of the event loop, at or
after the time it is ready, before the next call; in order. -/
def invokedArgs {α : Type} : List (Event α) → List α
  | [] => []
  | .call _ ready args :: rest =>
    (if runsBeforeNextCall ready rest then [args] else []) ++ invokedArgs rest
  | .turn _ :: rest => invokedArgs rest

/-- The arguments of the calls that are not followed by another call less than
`wait` milliseconds later, in order: what C9 says `func` is invoked with. -/
def settledCalls {α : Type} (wait : Nat) : List (Event α) → List α
  | [] => []
  | .call now _ args :: rest =>
    (match nextCallTime rest with
      | some next => if now + wait ≤ next then [args] else []
      | none => [args]) ++ settledCalls wait rest
  | .turn _ :: rest => settledCalls wait rest

/-- The event loop is prompt: every call that is not followed by another call
less than `wait` later gets a turn, at or after its timer is ready, before the
next call. -/
def Prompt {α : Type} (wait : Nat) : List (Event α) → Prop
  | [] => True
  | .call now ready _ :: rest =>
    ((∀ next, nextCallTime rest = some next → now + wait ≤ next) →
      runsBeforeNextCall ready rest = true) ∧ Prompt wait rest
  | .turn _ :: rest => Prompt wait rest

/-- A burst: every call that is followed by another is followed less than `wait`
milliseconds later. -/
def IsBurst {α : Type} (wait : Nat) : List (Event α) → Prop
  | [] => True
  | .call now _ _ :: rest =>
    (∀ next, nextCallTime rest = some next → next < now + wait) ∧ IsBurst wait rest
  | .turn _ :: rest => IsBurst wait rest

/-- The queue is empty, or it holds one timer and `timeout` is its id. -/
def AtMostOneTimer {α : Type} (s : Debounced α) : Prop :=
  s.pending = [] ∨ ∃ tm, s.pending = [tm] ∧ s.timeout = some tm.id

/-- Two calls 80 ms apart in one script, debounced by 50 ms, and a turn of the
event loop afterwards. -/
def busySchedule : List (Event String) :=
  [.call 0 50 "a", .call 80 130 "ab", .turn 200]

/-- Four input events 0, 300, 900 and 2500 ms in, debounced by 1000 ms, the
event loop taking a turn every 500 ms or so. -/
def typingSchedule : List (Event String) :=
  [.call 0 1000 "a", .call 300 1300 "ab", .turn 500, .call 900 1904 "abc", .turn 1000,
   .turn 1500, .turn 2000, .call 2500 3500 "abcd", .turn 3000, .turn 3600]

/-- The first three input events of `typingSchedule`, a burst, with the turns
that follow. -/
def burstSchedule : List (Event String) :=
  [.call 0 1000 "a", .call 300 1300 "ab", .turn 500, .call 900 1904 "abc", .turn 1000,
   .turn 1500, .turn 2000]

/-! ## Theorems: relative time and timestamps -/

theorem floorDiv_eq_floor (a : Int) (c : Nat) : a / (c : Int) = ⌊(a : ℚ) / (c : ℚ)⌋ := by
  exact (Rat.floor_intCast_div_natCast a c).symm

theorem formatRelativeTime_some (now date : Int) :
    formatRelativeTime now (some date) =
      if (now - date) / 1000 < 60 then "Just now"
      else if (now - date) / 1000 < 3600 then agoText ((now - date) / 1000 / 60) "minute"
      else if (now - date) / 1000 < 86400 then agoText ((now - date) / 1000 / 3600) "hour"
      else agoText ((now - date) / 1000 / 86400) "day" := by
  simp only [formatRelativeTime, JSNumber.sub, JSNumber.floorDiv, JSNumber.lt, JSNumber.gt,
    JSNumber.text, Option.map_some', agoText, decide_eq_true_eq]
  split_ifs <;> simp [String.append_assoc]


theorem elapsedSeconds_eq (now date : Int) : elapsedSeconds now date = (now - date) / 1000 := by
  unfold elapsedSeconds
  have := floorDiv_eq_floor (now - date) 1000
  simpa using this.symm

theorem floor_div_const (d : Int) (c : Nat) : ⌊(d : ℚ) / (c : ℚ)⌋ = d / (c : Int) :=
  (floorDiv_eq_floor d c).symm

/-- C1: with `d = floor ((now - date) / 1000)`, `formatRelativeTime` returns
"Just now" when `d < 60`, every negative `d` included; `N minute(s) ago` with
`N = floor (d / 60)` when `60 ≤ d < 3600`; `N hour(s) ago` with
`N = floor (d / 3600)` when `3600 ≤ d < 86400`; `N day(s) ago` with
`N = floor (d / 86400)` when `86400 ≤ d`; the `s` is there exactly when
`N > 1` (see `agoText`), and `N` is at least 1. -/
theorem formatRelativeTime_spec (now date : Int) :
    (elapsedSeconds now date < 60 → formatRelativeTime now (some date) = "Just now") ∧
    (60 ≤ elapsedSeconds now date → elapsedSeconds now date < 3600 →
      formatRelativeTime now (some date)
        = agoText ⌊(elapsedSeconds now date : ℚ) / 60⌋ "minute"
      ∧ 1 ≤ ⌊(elapsedSeconds now date : ℚ) / 60⌋) ∧
    (3600 ≤ elapsedSeconds now date → elapsedSeconds now date < 86400 →
      formatRelativeTime now (some date)
        = agoText ⌊(elapsedSeconds now date : ℚ) / 3600⌋ "hour"
      ∧ 1 ≤ ⌊(elapsedSeconds now date : ℚ) / 3600⌋) ∧
    (86400 ≤ elapsedSeconds now date →
      formatRelativeTime now (some date)
        = agoText ⌊(elapsedSeconds now date : ℚ) / 86400⌋ "day"
      ∧ 1 ≤ ⌊(elapsedSeconds now date : ℚ) / 86400⌋) := by
  have h60 := floor_div_const (elapsedSeconds now date) 60
  have h3600 := floor_div_const (elapsedSeconds now date) 3600
  have h86400 := floor_div_const (elapsedSeconds now date) 86400
  simp only [Nat.cast_ofNat] at h60 h3600 h86400
  rw [h60, h3600, h86400, formatRelativeTime_some, ← elapsedSeconds_eq]
  generalize elapsedSeconds now date = d
  refine ⟨fun h => by simp [h], fun h1 h2 => ?_, fun h1 h2 => ?_, fun h1 => ?_⟩
  · rw [if_neg (by omega), if_pos h2]
    exact ⟨rfl, by omega⟩
  · rw [if_neg (by omega), if_neg (by omega), if_pos h2]
    exact ⟨rfl, by omega⟩
  · rw [if_neg (by omega), if_neg (by omega), if_neg (by omega)]
    exact ⟨rfl, by omega⟩

theorem formatRelativeTime_invalid (now : Int) : formatRelativeTime now none = "NaN day ago" := by
  rfl

/-- C8 (the code at the failing input): an element whose `data-timestamp` is
not empty and does not parse as a date does not keep its text: it ends with
the text "NaN day ago". -/
theorem updateTimestamps_unparseable (parseDate : String → Option Int) (now : Int)
    (timestamp text : String) (hne : timestamp ≠ "") (hbad : parseDate timestamp = none) :
    updateTimestamps parseDate now [⟨some timestamp, text⟩]
      = [⟨some timestamp, "NaN day ago"⟩] := by
  simp [updateTimestamps, updateTimestamp, hne, hbad, formatRelativeTime_invalid]

/-- C8, at an element that read "5 minutes ago" and whose attribute is the
word `soon`. -/
theorem updateTimestamps_unparseable_witness :
    updateTimestamps (fun _ => none) 1700000000000 [⟨some "soon", "5 minutes ago"⟩]
      = [⟨some "soon", "NaN day ago"⟩] ∧ "5 minutes ago" ≠ "NaN day ago" :=
  ⟨updateTimestamps_unparseable (fun _ => none) 1700000000000 "soon" "5 minutes ago"
    (by decide) rfl, by decide⟩

/-- An element without the attribute, or with an empty one, keeps its text. -/
theorem updateTimestamp_missing_or_empty (parseDate : String → Option Int) (now : Int)
    (text : String) :
    updateTimestamp parseDate now ⟨none, text⟩ = ⟨none, text⟩ ∧
    updateTimestamp parseDate now ⟨some "", text⟩ = ⟨some "", text⟩ := by
  constructor <;> simp [updateTimestamp]

/-- The examples of the specification: 30 s, 90 s, 7200 s and 172800 s ago. -/
theorem formatRelativeTime_examples :
    formatRelativeTime 1700000000000 (some (1700000000000 - 30 * 1000)) = "Just now" ∧
    formatRelativeTime 1700000000000 (some (1700000000000 - 90 * 1000)) = "1 minute ago" ∧
    formatRelativeTime 1700000000000 (some (1700000000000 - 7200 * 1000)) = "2 hours ago" ∧
    formatRelativeTime 1700000000000 (some (1700000000000 - 172800 * 1000)) = "2 days ago" := by
  decide


/-! ## Theorems: phone numbers -/

theorem matchGroups_local (d : List Char) (hlen : d.length = 10) (hd : ∀ c ∈ d, isDigit c = true) :
    replaceGroups [3, 3, 4] templateLocal d
      = ['('] ++ slice d 0 3 ++ [')', ' '] ++ slice d 3 6 ++ ['-'] ++ slice d 6 10 := by
  match d, hlen with
  | [a, b, c, e, f, g, h, i, j, k], _ =>
    simp only [List.mem_cons, List.mem_singleton, forall_eq_or_imp, forall_eq, List.not_mem_nil,
      false_implies, implies_true, and_true] at hd
    obtain ⟨ha, hb, hc, he, hf, hg, hh, hi, hj, hk⟩ := hd
    simp [replaceGroups, matchGroups, templateLocal, slice, ha, hb, hc, he, hf, hg, hh, hi, hj, hk]

theorem matchGroups_country (d : List Char) (hlen : d.length = 11)
    (hd : ∀ c ∈ d, isDigit c = true) :
    replaceGroups [1, 3, 3, 4] templateCountry d
      = ['+'] ++ slice d 0 1 ++ [' ', '('] ++ slice d 1 4 ++ [')', ' '] ++ slice d 4 7 ++ ['-']
        ++ slice d 7 11 := by
  match d, hlen with
  | [a, b, c, e, f, g, h, i, j, k, l], _ =>
    simp only [List.mem_cons, List.mem_singleton, forall_eq_or_imp, forall_eq, List.not_mem_nil,
      false_implies, implies_true, and_true] at hd
    obtain ⟨ha, hb, hc, he, hf, hg, hh, hi, hj, hk, hl⟩ := hd
    simp [replaceGroups, matchGroups, templateCountry, slice, ha, hb, hc, he, hf, hg, hh, hi, hj,
      hk, hl]


theorem removeNonDigits_all (phone : String) :
    ∀ c ∈ (removeNonDigits phone).data, isDigit c = true := by
  intro c hc
  simp only [removeNonDigits, List.mem_filter] at hc
  exact hc.2

/-- The cases of `formatPhoneNumber` in terms of `removeNonDigits`. -/
theorem formatPhoneNumber_cases (phone : String) :
    ((removeNonDigits phone).length = 10 →
      formatPhoneNumber phone
        = "(" ++ substring (removeNonDigits phone) 0 3 ++ ") "
          ++ substring (removeNonDigits phone) 3 6 ++ "-"
          ++ substring (removeNonDigits phone) 6 10) ∧
    ((removeNonDigits phone).length = 11 → (removeNonDigits phone).data.head? = some '1' →
      formatPhoneNumber phone
        = "+1 (" ++ substring (removeNonDigits phone) 1 4 ++ ") "
          ++ substring (removeNonDigits phone) 4 7 ++ "-"
          ++ substring (removeNonDigits phone) 7 11) ∧
    (¬ (removeNonDigits phone).length = 10 →
      ¬ ((removeNonDigits phone).length = 11 ∧ (removeNonDigits phone).data.head? = some '1') →
      formatPhoneNumber phone = phone) := by
  have hall := removeNonDigits_all phone
  refine ⟨fun h10 => ?_, fun h11 h1 => ?_, fun h10 h11 => ?_⟩
  · have hne : phone ≠ "" := by
      rintro rfl
      simp [removeNonDigits, String.length] at h10
    simp only [formatPhoneNumber, if_neg hne, if_pos h10]
    rw [matchGroups_local (removeNonDigits phone).data h10 hall]
    apply String.ext
    simp [substring, String.data_append]
  · have hne : phone ≠ "" := by
      rintro rfl
      simp [removeNonDigits, String.length] at h11
    have h10 : ¬ (removeNonDigits phone).length = 10 := by omega
    simp only [formatPhoneNumber, if_neg hne, if_neg h10, if_pos (And.intro h11 h1)]
    rw [matchGroups_country (removeNonDigits phone).data h11 hall]
    have hs : slice (removeNonDigits phone).data 0 1 = ['1'] := by
      generalize (removeNonDigits phone).data = d at h11 h1
      match d, h11 with
      | a :: rest, _ =>
        simp only [List.head?_cons, Option.some.injEq] at h1
        simp [slice, h1]
    rw [hs]
    apply String.ext
    simp [substring, String.data_append]
  · by_cases hne : phone = ""
    · subst hne
      rfl
    · simp only [formatPhoneNumber, if_neg hne, if_neg h10, if_neg h11]

theorem isDigit_iff_range (c : Char) : isDigit c = decide ('0' ≤ c ∧ c ≤ '9') := by
  simp only [isDigit, Char.isDigit, Char.le_def, UInt32.le_def]
  rw [Bool.eq_iff_iff]
  simp only [Bool.and_eq_true, decide_eq_true_eq, ge_iff_le]
  rfl

theorem removeNonDigits_data (phone : String) :
    (removeNonDigits phone).data
      = phone.data.filter (fun c => decide ('0' ≤ c ∧ c ≤ '9')) := by
  simp only [removeNonDigits]
  apply List.filter_congr
  intro c _
  exact isDigit_iff_range c

/-- C2: with `digits` the characters of `phone` from `0` to `9`, in order
(`phone` with every non-digit character removed), `formatPhoneNumber phone`
is `(` `digits[0..3]` `) ` `digits[3..6]` `-` `digits[6..10]` when `digits`
has exactly 10 characters, `+1 (` `digits[1..4]` `) ` `digits[4..7]` `-`
`digits[7..11]` when it has exactly 11 and the first is `1`, and `phone`
itself, unchanged, in every other case. -/
theorem formatPhoneNumber_spec (phone : String) (digits : List Char)
    (hdigits : digits = phone.data.filter (fun c => decide ('0' ≤ c ∧ c ≤ '9'))) :
    (digits.length = 10 →
      formatPhoneNumber phone
        = "(" ++ String.mk (digits.take 3) ++ ") " ++ String.mk ((digits.drop 3).take 3)
          ++ "-" ++ String.mk ((digits.drop 6).take 4)) ∧
    (digits.length = 11 → digits.head? = some '1' →
      formatPhoneNumber phone
        = "+1 (" ++ String.mk ((digits.drop 1).take 3) ++ ") "
          ++ String.mk ((digits.drop 4).take 3) ++ "-" ++ String.mk ((digits.drop 7).take 4)) ∧
    (¬ digits.length = 10 → ¬ (digits.length = 11 ∧ digits.head? = some '1') →
      formatPhoneNumber phone = phone) := by
  have hdata : (removeNonDigits phone).data = digits := by
    rw [hdigits]
    exact removeNonDigits_data phone
  have hlen : (removeNonDigits phone).length = digits.length := by
    rw [← hdata]
    rfl
  have hcases := formatPhoneNumber_cases phone
  rw [hlen, hdata] at hcases
  simp only [substring, slice, hdata] at hcases
  exact hcases

/-- C2, at a number of 10 digits written with separators, a number of 11
digits that starts with 1, a number of 11 digits that does not, and a short
number. -/
theorem formatPhoneNumber_spec_witness :
    formatPhoneNumber "555.123.4567" = "(555) 123-4567" ∧
    formatPhoneNumber "1-555-123-4567" = "+1 (555) 123-4567" ∧
    formatPhoneNumber "2-555-123-4567" = "2-555-123-4567" ∧
    formatPhoneNumber "ext. 123" = "ext. 123" :=
  ⟨((formatPhoneNumber_spec "555.123.4567" "5551234567".data (by decide)).1
      (by decide)).trans (by decide),
    ((formatPhoneNumber_spec "1-555-123-4567" "15551234567".data (by decide)).2.1
      (by decide) (by decide)).trans (by decide),
    (formatPhoneNumber_spec "2-555-123-4567" "25551234567".data (by decide)).2.2
      (by decide) (by decide),
    (formatPhoneNumber_spec "ext. 123" "123".data (by decide)).2.2 (by decide) (by decide)⟩

/-- The examples of the specification. -/
theorem formatPhoneNumber_examples :
    formatPhoneNumber "5551234567" = "(555) 123-4567" ∧
    formatPhoneNumber "15551234567" = "+1 (555) 123-4567" ∧
    formatPhoneNumber "123" = "123" ∧
    formatPhoneNumber "+1 555-123-4567" = "+1 (555) 123-4567" := by
  decide


/-! ## Theorems: field and form validation -/

theorem mem_classListAdd (tokens : List String) (t : String) : t ∈ classListAdd tokens t := by
  unfold classListAdd
  split_ifs with h
  · exact h
  · simp

theorem not_mem_classListAdd_remove (tokens : List String) (s t : String) (hst : s ≠ t) :
    s ∉ classListAdd (classListRemove tokens s) t := by
  unfold classListAdd classListRemove
  split_ifs with h <;> simp [hst]

theorem showFieldError_classList (doc : Document) (field : Nat) (message : String) (page : Page) :
    (showFieldError doc field message page).classList = page.classList := by
  simp only [showFieldError]
  split <;> rfl

theorem hideFieldError_classList (doc : Document) (field : Nat) (page : Page) :
    (hideFieldError doc field page).classList = page.classList := rfl

theorem validateField_fst (doc : Document) (field : Nat) (page : Page) :
    (validateField doc field page).1 = doc.checkValidity field := by
  simp only [validateField]
  split_ifs <;> rfl

theorem validateField_classList_self (doc : Document) (field : Nat) (page : Page) :
    (validateField doc field page).2.classList field =
      if doc.checkValidity field then
        classListAdd (classListRemove (page.classList field) "is-invalid") "is-valid"
      else
        classListAdd (classListRemove (page.classList field) "is-valid") "is-invalid" := by
  simp only [validateField]
  split_ifs with h
  · simp [hideFieldError_classList]
  · simp [showFieldError_classList]

theorem validateField_classList_other (doc : Document) (field other : Nat) (page : Page)
    (h : other ≠ field) :
    (validateField doc field page).2.classList other = page.classList other := by
  simp only [validateField]
  split_ifs
  · simp [hideFieldError_classList, Function.update_noteq h]
  · simp [showFieldError_classList, Function.update_noteq h]

theorem validateField_marks (doc : Document) (field : Nat) (page : Page) :
    MarkedByValidity doc (validateField doc field page).2 field := by
  unfold MarkedByValidity MarkedValid MarkedInvalid
  rw [validateField_classList_self]
  constructor
  · intro h
    rw [if_pos h]
    exact ⟨mem_classListAdd _ _, not_mem_classListAdd_remove _ _ _ (by decide)⟩
  · intro h
    rw [if_neg (by simp [h])]
    exact ⟨mem_classListAdd _ _, not_mem_classListAdd_remove _ _ _ (by decide)⟩

theorem validateField_keeps_marks (doc : Document) (field other : Nat) (page : Page)
    (h : MarkedByValidity doc page other) :
    MarkedByValidity doc (validateField doc field page).2 other := by
  by_cases ho : other = field
  · subst ho
    exact validateField_marks doc other page
  · unfold MarkedByValidity MarkedValid MarkedInvalid at *
    rw [validateField_classList_other doc field other page ho]
    exact h

theorem validateLoop_fst (doc : Document) (inputs : List Nat) (state : Bool × Page) :
    (validateLoop doc inputs state).1
      = (state.1 && inputs.all (fun f => doc.checkValidity f)) := by
  induction inputs generalizing state with
  | nil => simp [validateLoop]
  | cons f rest ih =>
    have := ih (if !(validateField doc f state.2).1 then false else state.1,
      (validateField doc f state.2).2)
    simp only [validateLoop, List.foldl_cons] at this ⊢
    rw [this, validateField_fst]
    obtain ⟨b, pg⟩ := state
    cases b <;> cases hv : doc.checkValidity f <;> simp [hv]

theorem validateLoop_keeps_marks (doc : Document) (inputs : List Nat) (state : Bool × Page)
    (field : Nat) (h : MarkedByValidity doc state.2 field) :
    MarkedByValidity doc (validateLoop doc inputs state).2 field := by
  induction inputs generalizing state with
  | nil => simpa [validateLoop] using h
  | cons f rest ih =>
    simp only [validateLoop, List.foldl_cons]
    exact ih _ (validateField_keeps_marks doc f field state.2 h)

theorem validateLoop_marks (doc : Document) (inputs : List Nat) (state : Bool × Page)
    (field : Nat) (h : field ∈ inputs) :
    MarkedByValidity doc (validateLoop doc inputs state).2 field := by
  induction inputs generalizing state with
  | nil => simp at h
  | cons f rest ih =>
    simp only [validateLoop, List.foldl_cons]
    rcases List.mem_cons.mp h with rfl | hr
    · exact validateLoop_keeps_marks doc rest _ field (validateField_marks doc field state.2)
    · exact ih _ hr

theorem validateLoop_snd (doc : Document) (inputs : List Nat) (state : Bool × Page) :
    (validateLoop doc inputs state).2
      = inputs.foldl (fun page input => (validateField doc input page).2) state.2 := by
  induction inputs generalizing state with
  | nil => rfl
  | cons f rest ih =>
    simp only [validateLoop, List.foldl_cons] at ih ⊢
    rw [ih]

/-- C3: `validateForm` returns true exactly when every required field passes
the platform validity check; the page it leaves is the one `validateField`
leaves when run on every required field in turn, none skipped; and every
required field, also one that follows a failed field, ends marked `is-valid`
or `is-invalid` according to its own validity. -/
theorem validateForm_all_fields (doc : Document) (inputs : List Nat) (page : Page) :
    ((validateForm doc inputs page).1 = true ↔ ∀ f ∈ inputs, doc.checkValidity f = true) ∧
    (validateForm doc inputs page).2
      = inputs.foldl (fun page input => (validateField doc input page).2) page ∧
    (∀ f ∈ inputs,
      (doc.checkValidity f = true → MarkedValid (validateForm doc inputs page).2 f) ∧
      (doc.checkValidity f = false → MarkedInvalid (validateForm doc inputs page).2 f)) := by
  refine ⟨?_, validateLoop_snd doc inputs (true, page), fun f hf => ?_⟩
  · simp only [validateForm, validateLoop_fst, Bool.true_and, List.all_eq_true]
  · exact validateLoop_marks doc inputs (true, page) f hf

theorem isFeedback_setText (e : Element) (message : String) :
    isFeedback { e with textContent := message } = isFeedback e := rfl

theorem feedbackCount_setFeedbackText (message : String) (nodes : List Element) :
    feedbackCount (setFeedbackText message nodes) = feedbackCount nodes := by
  induction nodes with
  | nil => rfl
  | cons e rest ih =>
    unfold feedbackCount at *
    by_cases h : isFeedback e = true
    · simp [setFeedbackText, h, List.countP_cons, isFeedback_setText]
    · simp [setFeedbackText, h, List.countP_cons, ih]

theorem length_setFeedbackText (message : String) (nodes : List Element) :
    (setFeedbackText message nodes).length = nodes.length := by
  induction nodes with
  | nil => rfl
  | cons e rest ih =>
    by_cases h : isFeedback e = true
    · simp [setFeedbackText, h]
    · simp [setFeedbackText, h, ih]

theorem feedbackTexts_setFeedbackText (message : String) (nodes : List Element) :
    feedbackTexts (setFeedbackText message nodes)
      = if feedbackCount nodes = 0 then [] else message :: (feedbackTexts nodes).tail := by
  induction nodes with
  | nil => rfl
  | cons e rest ih =>
    unfold feedbackTexts feedbackCount at *
    by_cases h : isFeedback e = true
    · simp [setFeedbackText, h, List.countP_cons, isFeedback_setText, List.filter_cons]
    · simp [setFeedbackText, h, List.countP_cons, List.filter_cons, ih]

theorem feedbackTexts_length (nodes : List Element) :
    (feedbackTexts nodes).length = feedbackCount nodes := by
  simp [feedbackTexts, feedbackCount, List.countP_eq_length_filter]

theorem find_isFeedback_eq_none (nodes : List Element) :
    nodes.find? isFeedback = none ↔ feedbackCount nodes = 0 := by
  simp [feedbackCount, List.countP_eq_zero]

theorem feedbackCount_eraseP (nodes : List Element) :
    feedbackCount (nodes.eraseP isFeedback) = feedbackCount nodes - 1 := by
  induction nodes with
  | nil => rfl
  | cons e rest ih =>
    unfold feedbackCount at *
    by_cases h : isFeedback e = true
    · simp [List.eraseP_cons, h, List.countP_cons]
    · simp [List.eraseP_cons, h, List.countP_cons, ih]

theorem showFieldError_subtree (doc : Document) (field : Nat) (message : String) (page : Page)
    (node : Nat) :
    (showFieldError doc field message page).subtree node =
      if node = doc.parentNode field then
        (if feedbackCount (page.subtree node) = 0
          then page.subtree node ++ [⟨["invalid-feedback"], message⟩]
          else setFeedbackText message (page.subtree node))
      else page.subtree node := by
  simp only [showFieldError]
  split
  · next e he =>
    have hne : ¬ feedbackCount (page.subtree (doc.parentNode field)) = 0 := by
      rw [← find_isFeedback_eq_none, he]
      simp
    by_cases hn : node = doc.parentNode field
    · subst hn
      simp [hne]
    · simp [hn, Function.update_noteq hn]
  · next he =>
    have hz := (find_isFeedback_eq_none _).mp he
    by_cases hn : node = doc.parentNode field
    · subst hn
      simp [hz]
    · simp [hn, Function.update_noteq hn]

theorem hideFieldError_subtree (doc : Document) (field : Nat) (page : Page) (node : Nat) :
    (hideFieldError doc field page).subtree node =
      if node = doc.parentNode field then (page.subtree node).eraseP isFeedback
      else page.subtree node := by
  simp only [hideFieldError]
  by_cases hn : node = doc.parentNode field
  · subst hn
    simp
  · simp [hn, Function.update_noteq hn]

theorem validateField_subtree (doc : Document) (field : Nat) (page : Page) (node : Nat) :
    (validateField doc field page).2.subtree node =
      if doc.checkValidity field then (hideFieldError doc field page).subtree node
      else (showFieldError doc field (doc.validationMessage field) page).subtree node := by
  simp only [validateField]
  split_ifs with h
  · simp [hideFieldError_subtree]
  · simp [showFieldError_subtree]

theorem feedbackCount_append_new (nodes : List Element) (message : String) :
    feedbackCount (nodes ++ [⟨["invalid-feedback"], message⟩]) = feedbackCount nodes + 1 := by
  simp [feedbackCount, List.countP_append, isFeedback]

theorem feedbackCount_show (doc : Document) (field : Nat) (message : String) (page : Page)
    (node : Nat) :
    feedbackCount ((showFieldError doc field message page).subtree node) =
      if node = doc.parentNode field ∧ feedbackCount (page.subtree node) = 0 then 1
      else feedbackCount (page.subtree node) := by
  rw [showFieldError_subtree]
  by_cases hn : node = doc.parentNode field
  · subst hn
    by_cases hz : feedbackCount (page.subtree (doc.parentNode field)) = 0
    · rw [if_pos rfl, if_pos hz, if_pos ⟨rfl, hz⟩, feedbackCount_append_new, hz]
    · rw [if_pos rfl, if_neg hz, if_neg (fun h => hz h.2), feedbackCount_setFeedbackText]
  · rw [if_neg hn, if_neg (fun h => hn h.1)]

theorem feedbackCount_hide (doc : Document) (field : Nat) (page : Page) (node : Nat) :
    feedbackCount ((hideFieldError doc field page).subtree node) =
      if node = doc.parentNode field then feedbackCount (page.subtree node) - 1
      else feedbackCount (page.subtree node) := by
  rw [hideFieldError_subtree]
  split_ifs
  · exact feedbackCount_eraseP _
  · rfl

theorem showsMessage_setFeedbackText (message : String) (nodes : List Element)
    (h : feedbackCount nodes ≠ 0) : ShowsMessage (setFeedbackText message nodes) message := by
  induction nodes with
  | nil => simp [feedbackCount] at h
  | cons e rest ih =>
    by_cases he : isFeedback e = true
    · refine ⟨{ e with textContent := message }, ?_, ?_, rfl⟩
      · simp [setFeedbackText, he]
      · simpa [isFeedback_setText] using he
    · have hrest : feedbackCount rest ≠ 0 := by
        simpa [feedbackCount, List.countP_cons, he] using h
      obtain ⟨x, hx, hfx, htx⟩ := ih hrest
      refine ⟨x, ?_, hfx, htx⟩
      simp [setFeedbackText, he, hx]

theorem showsMessage_show (doc : Document) (field : Nat) (message : String) (page : Page) :
    ShowsMessage ((showFieldError doc field message page).subtree (doc.parentNode field))
      message := by
  rw [showFieldError_subtree, if_pos rfl]
  split_ifs with hz
  · exact ⟨⟨["invalid-feedback"], message⟩, by simp, by simp [isFeedback], rfl⟩
  · exact showsMessage_setFeedbackText message _ hz

theorem feedbackCount_validateField (doc : Document) (field : Nat) (page : Page) (node : Nat) :
    feedbackCount ((validateField doc field page).2.subtree node) =
      if doc.checkValidity field = true then
        (if node = doc.parentNode field then feedbackCount (page.subtree node) - 1
          else feedbackCount (page.subtree node))
      else
        (if node = doc.parentNode field ∧ feedbackCount (page.subtree node) = 0 then 1
          else feedbackCount (page.subtree node)) := by
  rw [validateField_subtree]
  by_cases hv : doc.checkValidity field = true
  · rw [if_pos hv, if_pos hv, feedbackCount_hide]
  · rw [if_neg hv, if_neg hv, feedbackCount_show]

theorem showsMessage_validateField (doc : Document) (field : Nat) (page : Page)
    (hv : doc.checkValidity field = false) :
    ShowsMessage ((validateField doc field page).2.subtree (doc.parentNode field))
      (doc.validationMessage field) := by
  rw [validateField_subtree, if_neg (by simp [hv])]
  exact showsMessage_show doc field _ page

theorem validateForm_pair (doc : Document) (first second : Nat) (page : Page) :
    validateForm doc [first, second] page
      = ((doc.checkValidity first && doc.checkValidity second),
          (validateField doc second (validateField doc first page).2).2) := by
  simp only [validateForm, validateLoop, List.foldl_cons, List.foldl_nil, validateField_fst]
  cases doc.checkValidity first <;> cases doc.checkValidity second <;> rfl

/-- C4 (as stated, refuted): a valid field whose parent already holds two
error-message elements: `validateField` returns true and one error-message
element is still there. -/
theorem validateField_leaves_a_message :
    (validateField allValidDocument 0 twoMessagesPage).1 = true ∧
    feedbackCount ((validateField allValidDocument 0 twoMessagesPage).2.subtree
      (allValidDocument.parentNode 0)) ≠ 0 := by
  decide

/-- C4 (amended): `validateField` returns the platform validity of the field;
a valid field ends marked `is-valid` and not `is-invalid`, and its parent holds
no error-message element provided it held at most one before; an invalid field
ends marked `is-invalid` and not `is-valid`, and its parent holds an
error-message element whose text is the platform validation message. -/
theorem validateField_effect (doc : Document) (field : Nat) (page : Page) :
    (validateField doc field page).1 = doc.checkValidity field ∧
    (doc.checkValidity field = true →
      MarkedValid (validateField doc field page).2 field ∧
      (feedbackCount (page.subtree (doc.parentNode field)) ≤ 1 →
        feedbackCount ((validateField doc field page).2.subtree (doc.parentNode field)) = 0)) ∧
    (doc.checkValidity field = false →
      MarkedInvalid (validateField doc field page).2 field ∧
      ShowsMessage ((validateField doc field page).2.subtree (doc.parentNode field))
        (doc.validationMessage field)) := by
  refine ⟨validateField_fst doc field page, fun hv => ⟨?_, fun hc => ?_⟩, fun hv => ⟨?_, ?_⟩⟩
  · exact (validateField_marks doc field page).1 hv
  · rw [feedbackCount_validateField, if_pos hv, if_pos rfl]
    omega
  · exact (validateField_marks doc field page).2 hv
  · exact showsMessage_validateField doc field page hv

/-- C4 (amended), at a page whose node holds one error-message element: the
hypothesis of the valid case holds there and the message is gone afterwards. -/
theorem validateField_effect_witness :
    feedbackCount (oneMessagePage.subtree (allValidDocument.parentNode 0)) ≤ 1 ∧
    feedbackCount ((validateField allValidDocument 0 oneMessagePage).2.subtree
      (allValidDocument.parentNode 0)) = 0 :=
  ⟨by decide,
    ((validateField_effect allValidDocument 0 oneMessagePage).2.1 rfl).2 (by decide)⟩

/-- C5: when the parent of a field holds at most one error-message element,
it still does after `showFieldError` with any message, after `hideFieldError`
and after `validateField` on that field; and validating an invalid field whose
parent holds one error-message element keeps the number of elements of the
parent and leaves the platform message as the only error text: the element is
updated in place and no second one is added. -/
theorem atMostOneMessage_preserved (doc : Document) (field : Nat) (message : String)
    (page : Page) (h : feedbackCount (page.subtree (doc.parentNode field)) ≤ 1) :
    feedbackCount ((showFieldError doc field message page).subtree (doc.parentNode field)) ≤ 1 ∧
    feedbackCount ((hideFieldError doc field page).subtree (doc.parentNode field)) ≤ 1 ∧
    feedbackCount ((validateField doc field page).2.subtree (doc.parentNode field)) ≤ 1 ∧
    (feedbackCount (page.subtree (doc.parentNode field)) = 1 →
      doc.checkValidity field = false →
      ((validateField doc field page).2.subtree (doc.parentNode field)).length
        = (page.subtree (doc.parentNode field)).length ∧
      feedbackTexts ((validateField doc field page).2.subtree (doc.parentNode field))
        = [doc.validationMessage field]) := by
  have hshow : ∀ m, feedbackCount
      ((showFieldError doc field m page).subtree (doc.parentNode field)) ≤ 1 := by
    intro m
    rw [feedbackCount_show]
    split_ifs
    · exact le_refl 1
    · exact h
  have hhide : feedbackCount
      ((hideFieldError doc field page).subtree (doc.parentNode field)) ≤ 1 := by
    rw [feedbackCount_hide, if_pos rfl]
    omega
  refine ⟨hshow message, hhide, ?_, ?_⟩
  · rw [validateField_subtree]
    split_ifs
    · exact hhide
    · exact hshow _
  · intro hone hv
    have hnz : ¬ feedbackCount (page.subtree (doc.parentNode field)) = 0 := by omega
    rw [validateField_subtree, if_neg (by simp [hv]), showFieldError_subtree, if_pos rfl,
      if_neg hnz]
    refine ⟨length_setFeedbackText _ _, ?_⟩
    rw [feedbackTexts_setFeedbackText, if_neg hnz]
    have hlen := feedbackTexts_length (page.subtree (doc.parentNode field))
    rw [hone] at hlen
    match hft : feedbackTexts (page.subtree (doc.parentNode field)), hlen with
    | [t], _ => rfl

/-- C5, at a page whose node 0 holds a label and one error-message element,
for the invalid field 1: the element is still the only one and carries the
new message. -/
theorem atMostOneMessage_preserved_witness :
    feedbackCount (oneMessagePage.subtree (sharedParentDocument.parentNode 1)) ≤ 1 ∧
    feedbackCount ((validateField sharedParentDocument 1 oneMessagePage).2.subtree
      (sharedParentDocument.parentNode 1)) ≤ 1 ∧
    feedbackTexts ((validateField sharedParentDocument 1 oneMessagePage).2.subtree
      (sharedParentDocument.parentNode 1)) = ["Please fill out this field."] :=
  ⟨by decide,
    (atMostOneMessage_preserved sharedParentDocument 1 "" oneMessagePage (by decide)).2.2.1,
    ((atMostOneMessage_preserved sharedParentDocument 1 "" oneMessagePage
      (by decide)).2.2.2 (by decide) (by decide)).2⟩

/-- C10: two required fields that share a parent, the first invalid and the
second valid, the parent holding at most one error-message element before:
`validateForm` returns false and the first field ends marked `is-invalid`;
the message was shown when the first field was validated, and the shared
parent holds no error-message element once the second has been. -/
theorem validateForm_sibling_hides_message (doc : Document) (first second : Nat) (page : Page)
    (hparent : doc.parentNode first = doc.parentNode second)
    (hfirst : doc.checkValidity first = false) (hsecond : doc.checkValidity second = true)
    (hone : feedbackCount (page.subtree (doc.parentNode first)) ≤ 1) :
    (validateForm doc [first, second] page).1 = false ∧
    MarkedInvalid (validateForm doc [first, second] page).2 first ∧
    ShowsMessage ((validateField doc first page).2.subtree (doc.parentNode first))
      (doc.validationMessage first) ∧
    feedbackCount ((validateForm doc [first, second] page).2.subtree (doc.parentNode first))
      = 0 := by
  rw [validateForm_pair]
  refine ⟨by simp [hfirst], ?_, showsMessage_validateField doc first page hfirst, ?_⟩
  · have hm := (validateField_keeps_marks doc second first (validateField doc first page).2
      (validateField_marks doc first page)).2 hfirst
    exact hm
  · have hmid : feedbackCount ((validateField doc first page).2.subtree (doc.parentNode first))
        ≤ 1 := by
      rw [feedbackCount_validateField, if_neg (by simp [hfirst])]
      split_ifs <;> omega
    show feedbackCount ((validateField doc second (validateField doc first page).2).2.subtree
      (doc.parentNode first)) = 0
    rw [feedbackCount_validateField, if_pos hsecond, if_pos hparent]
    omega

/-- C10, at a form whose fields 1 (invalid) and 2 (valid) share node 0. -/
theorem validateForm_sibling_hides_message_witness :
    (validateForm sharedParentDocument [1, 2] freshPage).1 = false ∧
    MarkedInvalid (validateForm sharedParentDocument [1, 2] freshPage).2 1 ∧
    ShowsMessage ((validateField sharedParentDocument 1 freshPage).2.subtree
      (sharedParentDocument.parentNode 1)) (sharedParentDocument.validationMessage 1) ∧
    feedbackCount ((validateForm sharedParentDocument [1, 2] freshPage).2.subtree
      (sharedParentDocument.parentNode 1)) = 0 :=
  validateForm_sibling_hides_message sharedParentDocument 1 2 freshPage rfl
    (by decide) (by decide) (by decide)

/-! ## Theorems: draft auto-save -/

theorem setNamed_name (key text : String) (field : FormField) :
    (setNamed key text field).name = field.name := by
  unfold setNamed
  split_ifs <;> rfl

theorem setNamed_kind (key text : String) (field : FormField) :
    (setNamed key text field).kind = field.kind := by
  unfold setNamed
  split_ifs <;> rfl

theorem setNamed_of_ne (key text : String) (field : FormField) (h : field.name ≠ key) :
    setNamed key text field = field := by
  simp [setNamed, h]

theorem setFirstNamed_eq_map (key : String) (value : DraftValue) (fields : List FormField)
    (hkey : key ≠ "")
    (hd : ((fields.filter (fun f => decide (f.name ≠ ""))).map (fun f => f.name)).Nodup)
    (htext : ∀ f ∈ fields, f.name ≠ "" → f.kind = ControlKind.text) :
    setFirstNamed key value fields = some (fields.map (setNamed key value.toText)) := by
  induction fields with
  | nil => rfl
  | cons f rest ih =>
    by_cases hf : f.name = key
    · have hfn : f.name ≠ "" := by rw [hf]; exact hkey
      simp only [List.filter_cons, hfn, ne_eq, not_false_eq_true, decide_True, if_true,
        List.map_cons, List.nodup_cons, List.mem_map, List.mem_filter, decide_eq_true_eq,
        not_exists, not_and] at hd
      have hrest : rest.map (setNamed key value.toText) = rest := by
        conv_rhs => rw [← List.map_id rest]
        apply List.map_congr_left
        intro r hr
        have hne : r.name ≠ key := by
          intro hrk
          exact hd.1 r ⟨hr, by rw [hrk]; exact hkey⟩ (by rw [hrk, hf])
        simp [setNamed_of_ne key _ r hne]
      have hk := htext f (by simp) hfn
      simp [setFirstNamed, hf, hrest, assignValue, hk, setNamed]
    · have hd' : ((rest.filter (fun f => decide (f.name ≠ ""))).map (fun f => f.name)).Nodup := by
        by_cases hfn : f.name = ""
        · simpa [List.filter_cons, hfn] using hd
        · simp only [List.filter_cons, hfn, ne_eq, not_false_eq_true, decide_True, if_true,
            List.map_cons, List.nodup_cons] at hd
          exact hd.2
      simp [setFirstNamed, hf, ih hd' (fun g hg => htext g (by simp [hg])),
        setNamed_of_ne key _ f hf]

theorem applyEntries_cons (e : String × DraftValue) (rest : Draft) (field : FormField) :
    applyEntries (e :: rest) field = applyEntries rest (setNamed e.1 e.2.toText field) := rfl

theorem applyEntries_name (entries : Draft) (field : FormField) :
    (applyEntries entries field).name = field.name := by
  induction entries generalizing field with
  | nil => rfl
  | cons e rest ih => rw [applyEntries_cons, ih, setNamed_name]

theorem applyEntries_of_not_mem (entries : Draft) (field : FormField)
    (h : ∀ e ∈ entries, e.1 ≠ field.name) : applyEntries entries field = field := by
  induction entries generalizing field with
  | nil => rfl
  | cons e rest ih =>
    have he : field.name ≠ e.1 := fun hfe => h e (by simp) hfe.symm
    rw [applyEntries_cons, setNamed_of_ne _ _ _ he]
    exact ih field (fun x hx => h x (by simp [hx]))

theorem applyEntries_of_mem (entries : Draft) (field : FormField) (key : String)
    (value : DraftValue) (hd : (entries.map (fun e => e.1)).Nodup)
    (hmem : (key, value) ∈ entries) (hname : key = field.name) :
    (applyEntries entries field).value = value.toText := by
  induction entries generalizing field with
  | nil => simp at hmem
  | cons e rest ih =>
    simp only [List.map_cons, List.nodup_cons, List.mem_map, not_exists, not_and] at hd
    rw [applyEntries_cons]
    rcases List.mem_cons.mp hmem with heq | hr
    · subst heq
      have hset : setNamed key value.toText field = { field with value := value.toText } := by
        simp [setNamed, hname]
      have hrest : ∀ x ∈ rest, x.1 ≠ (setNamed key value.toText field).name := by
        intro x hx hxe
        rw [setNamed_name] at hxe
        exact hd.1 x hx (by rw [hxe, hname])
      rw [applyEntries_of_not_mem rest _ hrest, hset]
    · have hne : field.name ≠ e.1 := by
        intro hfe
        exact hd.1 (key, value) hr (by rw [hname, hfe])
      rw [setNamed_of_ne _ _ _ hne]
      exact ih field hd.2 hr hname

theorem namedDistinct_withFields (form : Form) (key text : String) (hd : NamedDistinct form) :
    NamedDistinct (form.withFields (form.fields.map (setNamed key text))) := by
  unfold NamedDistinct at hd ⊢
  have hnames : (form.fields.map (setNamed key text)).filter (fun f => decide (f.name ≠ ""))
      = (form.fields.filter (fun f => decide (f.name ≠ ""))).map (setNamed key text) := by
    rw [List.filter_map]
    congr 1
    apply List.filter_congr
    intro f _
    simp only [Function.comp, setNamed_name]
  have hcomp : ((fun f : FormField => f.name) ∘ setNamed key text) = fun f => f.name := by
    funext f
    simp only [Function.comp, setNamed_name]
  simp only [Form.withFields, hnames, List.map_map, hcomp]
  exact hd

theorem namedText_withFields (form : Form) (key text : String) (htext : NamedText form) :
    NamedText (form.withFields (form.fields.map (setNamed key text))) := by
  intro g hg hgn
  simp only [Form.withFields, List.mem_map] at hg
  obtain ⟨f, hf, rfl⟩ := hg
  rw [setNamed_name] at hgn
  rw [setNamed_kind]
  exact htext f hf hgn

theorem shadows_eq_false (form : Form) (property : String)
    (h : ∀ f ∈ form.fields, f.name ≠ property) : shadows form property = false := by
  simp only [shadows, List.any_eq_false, decide_eq_true_eq]
  exact h

theorem shadows_withFields (form : Form) (key text property : String) :
    shadows (form.withFields (form.fields.map (setNamed key text))) property
      = shadows form property := by
  simp only [shadows, Form.withFields, List.any_map]
  congr 1
  funext f
  simp only [Function.comp, setNamed_name]

theorem foldlM_loadEntry (entries : Draft) (form : Form)
    (hkeys : ∀ e ∈ entries, e.1 ≠ "" ∧ selectorSafe e.1 = true)
    (hd : NamedDistinct form) (htext : NamedText form)
    (hq : shadows form "querySelector" = false) :
    entries.foldlM loadEntry form
      = some (form.withFields (form.fields.map (applyEntries entries))) := by
  induction entries generalizing form with
  | nil =>
    have : applyEntries [] = id := by
      funext f
      rfl
    simp [this, Form.withFields]
  | cons e rest ih =>
    have hk := hkeys e (by simp)
    have hstep := setFirstNamed_eq_map e.1 e.2 form.fields hk.1 hd htext
    have hload : loadEntry form e
        = some (form.withFields (form.fields.map (setNamed e.1 e.2.toText))) := by
      simp [loadEntry, hk.2, hstep, hq]
    simp only [List.foldlM_cons, hload, Option.bind_eq_bind, Option.some_bind]
    rw [ih _ (fun x hx => hkeys x (by simp [hx]))
      (namedDistinct_withFields form e.1 e.2.toText hd)
      (namedText_withFields form e.1 e.2.toText htext)
      (by rw [shadows_withFields]; exact hq)]
    simp only [Form.withFields, List.map_map]
    rfl

theorem foldl_assign_append (acc entries : Draft)
    (hd : ((acc ++ entries.filter (fun e => decide (e.1 ≠ "__proto__"))).map
      (fun e => e.1)).Nodup) :
    entries.foldl (fun data entry => Draft.assign data entry.1 entry.2) acc
      = acc ++ entries.filter (fun e => decide (e.1 ≠ "__proto__")) := by
  induction entries generalizing acc with
  | nil => simp
  | cons e rest ih =>
    simp only [List.foldl_cons]
    by_cases hp : e.1 = "__proto__"
    · have hassign : Draft.assign acc e.1 e.2 = acc := by simp [Draft.assign, hp]
      rw [hassign, ih acc (by simpa [List.filter_cons, hp] using hd)]
      simp [List.filter_cons, hp]
    · have hd0 : ((acc ++ (e :: rest.filter (fun e => decide (e.1 ≠ "__proto__")))).map
          (fun e => e.1)).Nodup := by
        simpa [List.filter_cons, hp] using hd
      have hnot : ∀ p ∈ acc, p.1 ≠ e.1 := by
        intro p hpm hpe
        simp only [List.map_append, List.map_cons, List.nodup_append, List.nodup_cons] at hd0
        exact hd0.2.2 (List.mem_map_of_mem (fun e => e.1) hpm) (by simp [hpe])
      have hassign : Draft.assign acc e.1 e.2 = acc ++ [(e.1, e.2)] := by
        unfold Draft.assign
        rw [if_neg hp, if_neg]
        simp only [List.any_eq_true, decide_eq_true_eq, not_exists, not_and]
        exact hnot
      rw [hassign, ih (acc ++ [(e.1, e.2)]) (by simpa using hd0)]
      simp [List.filter_cons, hp]

theorem nodup_formEntries (form : Form) (hd : NamedDistinct form) :
    ((formEntries form).map (fun e => e.1)).Nodup := by
  unfold NamedDistinct at hd
  have heq : form.fields.filter (fun f => f.listed && decide (f.name ≠ ""))
      = (form.fields.filter (fun f => decide (f.name ≠ ""))).filter (fun f => f.listed) := by
    rw [List.filter_filter]
  have hsub : List.Sublist (form.fields.filter (fun f => f.listed && decide (f.name ≠ "")))
      (form.fields.filter (fun f => decide (f.name ≠ ""))) := by
    rw [heq]
    exact List.filter_sublist _
  have := List.Nodup.sublist (hsub.map (fun f => f.name)) hd
  simpa [formEntries, List.map_map, Function.comp] using this

theorem draftOf_eq_filter (form : Form) (hd : NamedDistinct form) :
    draftOf form = (formEntries form).filter (fun e => decide (e.1 ≠ "__proto__")) := by
  unfold draftOf
  rw [foldl_assign_append]
  · simp
  · simp only [List.nil_append]
    exact List.Nodup.sublist ((List.filter_sublist _).map _) (nodup_formEntries form hd)

theorem mem_draftOf (form : Form) (hd : NamedDistinct form) (htext : NamedText form)
    (key : String) (value : DraftValue) :
    (key, value) ∈ draftOf form ↔
      ∃ s ∈ form.fields, s.listed = true ∧ s.name ≠ "" ∧ s.name ≠ "__proto__" ∧ s.name = key ∧
        value = DraftValue.text s.value := by
  rw [draftOf_eq_filter form hd]
  simp only [formEntries, List.mem_filter, List.mem_map, Bool.and_eq_true, decide_eq_true_eq,
    Prod.mk.injEq]
  constructor
  · rintro ⟨⟨s, ⟨hs, hl, hn⟩, hk, hv⟩, hp⟩
    refine ⟨s, hs, hl, hn, by rw [hk]; exact hp, hk, ?_⟩
    rw [← hv, htext s hs hn]
  · rintro ⟨s, hs, hl, hn, hp, hk, hv⟩
    refine ⟨⟨s, ⟨hs, hl, hn⟩, hk, ?_⟩, by rw [← hk]; exact hp⟩
    rw [hv, htext s hs hn]

theorem formId_of_noShadowing (form : Form) (h : NoShadowing form) :
    formId form = some ((identifier form).getD "null") := by
  have hid := shadows_eq_false form "id" (fun f hf => (h f hf).1)
  have hget := shadows_eq_false form "getAttribute" (fun f hf => (h f hf).2.1)
  unfold formId identifier
  rw [hid, hget]
  by_cases hf : form.id = ""
  · cases hattr : form.dataAutosave <;> simp [hf, hattr]
  · simp [hf]

theorem mem_zip_map_self {α β : Type} (g : α → β) (l : List α) (p : α × β)
    (h : p ∈ l.zip (l.map g)) : p.1 ∈ l ∧ p.2 = g p.1 := by
  induction l with
  | nil => simp at h
  | cons a rest ih =>
    simp only [List.map_cons, List.zip_cons_cons, List.mem_cons] at h
    rcases h with rfl | hr
    · exact ⟨by simp, rfl⟩
    · exact ⟨by simp [(ih hr).1], (ih hr).2⟩

theorem saveThenLoad_eq (ownEntries : Draft → Draft)
    (accepts : LocalStorage → String → Draft → Bool) (storage : LocalStorage)
    (saved before : Form) (horder : ∀ d, (ownEntries d).Perm d)
    (haccepts : ∀ key draft, accepts storage key draft = true)
    (hid : identifier before = identifier saved)
    (hsavedNames : NoShadowing saved) (hbeforeNames : NoShadowing before)
    (hsaved : NamedDistinct saved) (hsavedText : NamedText saved) (hsafe : NamesSafe saved)
    (hbefore : NamedDistinct before) (hbeforeText : NamedText before) :
    saveThenLoad ownEntries accepts storage saved before
      = some (before.withFields
          (before.fields.map (applyEntries (ownEntries (draftOf saved))))) := by
  have hkey : formId before = formId saved := by
    rw [formId_of_noShadowing saved hsavedNames, formId_of_noShadowing before hbeforeNames, hid]
  have hsome := formId_of_noShadowing saved hsavedNames
  simp only [saveThenLoad, saveFormData, hsome, haccepts, if_true, loadFormData, hkey,
    Function.update_same]
  apply foldlM_loadEntry _ _ _ hbefore hbeforeText
    (shadows_eq_false before "querySelector" (fun f hf => (hbeforeNames f hf).2.2))
  intro e he
  have hmem := (horder (draftOf saved)).mem_iff.mp he
  obtain ⟨s, hs, _, hn, _, hk, _⟩ := (mem_draftOf saved hsaved hsavedText e.1 e.2).mp hmem
  rw [← hk]
  refine ⟨hn, ?_⟩
  simp only [selectorSafe, List.all_eq_true, Bool.and_eq_true, decide_eq_true_eq]
  intro c hc
  obtain ⟨h1, h2, h3, h4, h5, h6⟩ := hsafe s hs c hc
  exact ⟨⟨⟨⟨⟨h1, h2⟩, h3⟩, h4⟩, h5⟩, h6⟩

/-- C6 (as stated, refuted): a form with two text controls named `choice`, saved
with the values `morning` and `evening` and loaded into the freshly rendered
form: the first control gets `evening` and the second stays empty. -/
theorem loadFormData_shared_name :
    saveThenLoad id unlimited emptyStorage twoChoicesSaved twoChoicesFresh
      = some ⟨"enrol", none, [⟨"choice", "evening", .text, true⟩, ⟨"choice", "", .text, true⟩]⟩ ∧
    ¬ RestoresDraft twoChoicesSaved twoChoicesFresh
      ⟨"enrol", none, [⟨"choice", "evening", .text, true⟩, ⟨"choice", "", .text, true⟩]⟩ := by
  refine ⟨by decide, fun h => ?_⟩
  have hp := (h.2 (⟨"choice", "", .text, true⟩, ⟨"choice", "evening", .text, true⟩)
    (by decide)).1 ⟨"choice", "morning", .text, true⟩ (by decide) rfl (by decide) (by decide) rfl
  exact absurd hp (by decide)

/-- C6 (amended): when local storage accepts the write, the controls of both
forms have pairwise distinct names, none of them `id`, `getAttribute` or
`querySelector`, and are text controls, and the names of the saved form hold
no double quote, backslash, line break or null character, `saveFormData`
followed by `loadFormData` on a form with the same identifier (`id`, or else
the `data-autosave` attribute) completes and gives every control whose name
occurs in the draft the value the control of that name had when saved, and
leaves every other control at its value, whatever the order in which the keys
of the draft are enumerated.  The draft holds the listed controls with a name
that is neither empty nor `__proto__`. -/
theorem loadFormData_restores (ownEntries : Draft → Draft)
    (accepts : LocalStorage → String → Draft → Bool) (storage : LocalStorage)
    (saved before : Form) (horder : ∀ d, (ownEntries d).Perm d)
    (haccepts : ∀ key draft, accepts storage key draft = true)
    (hid : identifier before = identifier saved)
    (hsavedNames : NoShadowing saved) (hbeforeNames : NoShadowing before)
    (hsaved : NamedDistinct saved) (hsavedText : NamedText saved) (hsafe : NamesSafe saved)
    (hbefore : NamedDistinct before) (hbeforeText : NamedText before) :
    ∃ after, saveThenLoad ownEntries accepts storage saved before = some after ∧
      RestoresDraft saved before after := by
  refine ⟨_, saveThenLoad_eq ownEntries accepts storage saved before horder haccepts hid
    hsavedNames hbeforeNames hsaved hsavedText hsafe hbefore hbeforeText, ?_⟩
  have hperm := horder (draftOf saved)
  have hnodup : ((ownEntries (draftOf saved)).map (fun e => e.1)).Nodup := by
    have h1 : ((draftOf saved).map (fun e => e.1)).Nodup := by
      rw [draftOf_eq_filter saved hsaved]
      exact List.Nodup.sublist ((List.filter_sublist _).map _) (nodup_formEntries saved hsaved)
    exact ((hperm.map _).nodup_iff).mpr h1
  refine ⟨?_, fun p hp => ?_⟩
  · simp only [Form.withFields, List.map_map]
    apply List.map_congr_left
    intro f _
    exact applyEntries_name _ f
  · simp only [Form.withFields] at hp
    obtain ⟨_, hp2⟩ := mem_zip_map_self _ _ p hp
    rw [hp2]
    constructor
    · intro s hs hl hn hproto hname
      have hmem : (s.name, DraftValue.text s.value) ∈ ownEntries (draftOf saved) :=
        hperm.mem_iff.mpr ((mem_draftOf saved hsaved hsavedText _ _).mpr
          ⟨s, hs, hl, hn, hproto, rfl, rfl⟩)
      exact applyEntries_of_mem _ p.1 s.name (DraftValue.text s.value) hnodup hmem hname
    · intro hnone
      rw [applyEntries_of_not_mem]
      intro e he hname
      obtain ⟨s, hs, hl, hn, hproto, hk, _⟩ :=
        (mem_draftOf saved hsaved hsavedText e.1 e.2).mp (hperm.mem_iff.mp he)
      exact hnone ⟨s, hs, hl, hn, hproto, by rw [hk, hname]⟩

theorem namedDistinct_enrolSaved : NamedDistinct enrolSaved := by
  unfold NamedDistinct
  decide

theorem namedDistinct_enrolFresh : NamedDistinct enrolFresh := by
  unfold NamedDistinct
  decide

/-- C6 (amended), at a form with the text controls `name` and `phone`, a
control without a name, a control named `__proto__` and an unchecked checkbox
`notify`, loaded into the fresh form that has a further control `notes`: the
two text controls get their saved values and the others keep theirs. -/
theorem loadFormData_restores_witness :
    (∃ after, saveThenLoad id unlimited emptyStorage enrolSaved enrolFresh = some after ∧
      RestoresDraft enrolSaved enrolFresh after) ∧
    (saveThenLoad id unlimited emptyStorage enrolSaved enrolFresh).map
      (fun form => form.fields.map (fun f => (f.name, f.value)))
      = some [("name", "Tariro"), ("", ""), ("phone", "5551234567"), ("__proto__", ""),
          ("notify", "on"), ("notes", "n/a")] :=
  ⟨loadFormData_restores id unlimited emptyStorage enrolSaved enrolFresh
    (fun _ => List.Perm.refl _) (fun _ _ => rfl) (by decide)
    (by unfold NoShadowing; decide) (by unfold NoShadowing; decide)
    namedDistinct_enrolSaved (by unfold NamedText; decide)
    (by unfold NamesSafe; decide) namedDistinct_enrolFresh (by unfold NamedText; decide),
    by decide⟩

/-- Clearing the draft stored under the identifier of a form and loading leaves
the form as it is. -/
theorem loadFormData_after_clear (ownEntries : Draft → Draft) (storage : LocalStorage)
    (form : Form) (id : String) (hid : formId form = some id) :
    loadFormData ownEntries (clearSavedFormData storage id) form = some form := by
  simp [loadFormData, clearSavedFormData, hid]

/-- The form `enrolFresh`, once its draft is cleared, loads as it is. -/
theorem loadFormData_after_clear_witness :
    loadFormData id (clearSavedFormData emptyStorage "enrol") enrolFresh = some enrolFresh :=
  loadFormData_after_clear id emptyStorage enrolFresh "enrol" (by decide)

/-- A file input in the draft: the draft holds an empty object under its name,
and loading into a form whose control of that name is a file input raises. -/
theorem loadFormData_file_input :
    draftOf ⟨"cv", none, [⟨"upload", "C:\\fakepath\\cv.pdf", .file, true⟩]⟩
      = [("upload", DraftValue.object)] ∧
    saveThenLoad id unlimited emptyStorage
      ⟨"cv", none, [⟨"upload", "C:\\fakepath\\cv.pdf", .file, true⟩]⟩
      ⟨"cv", none, [⟨"upload", "", .file, true⟩]⟩ = none := by
  decide

/-- A control named `__proto__` is not saved, and a control named
`querySelector` makes loading raise. -/
theorem loadFormData_special_names :
    draftOf ⟨"f", none, [⟨"__proto__", "x", .text, true⟩, ⟨"b", "y", .text, true⟩]⟩
      = [("b", DraftValue.text "y")] ∧
    saveThenLoad id unlimited emptyStorage
      ⟨"f", none, [⟨"querySelector", "x", .text, true⟩]⟩
      ⟨"f", none, [⟨"querySelector", "", .text, true⟩]⟩ = none := by
  decide

/-! ## Theorems: table sorting -/

section SortLemmas

variable {α : Type}

theorem orderedInsert_congr (r s : α → α → Prop) [DecidableRel r] [DecidableRel s] (a : α)
    (l : List α) (h : ∀ b ∈ l, (r a b ↔ s a b)) :
    l.orderedInsert r a = l.orderedInsert s a := by
  induction l with
  | nil => rfl
  | cons b rest ih =>
    have hb := h b (by simp)
    by_cases hr : r a b
    · simp [List.orderedInsert, hr, hb.mp hr]
    · have hs : ¬ s a b := fun hs => hr (hb.mpr hs)
      simp [List.orderedInsert, hr, hs, ih (fun c hc => h c (by simp [hc]))]

theorem insertionSort_congr (r s : α → α → Prop) [DecidableRel r] [DecidableRel s]
    (l : List α) (h : ∀ a ∈ l, ∀ b ∈ l, (r a b ↔ s a b)) :
    l.insertionSort r = l.insertionSort s := by
  induction l with
  | nil => rfl
  | cons a rest ih =>
    have hrest := ih (fun x hx y hy => h x (by simp [hx]) y (by simp [hy]))
    simp only [List.insertionSort, ← hrest]
    apply orderedInsert_congr
    intro b hb
    exact h a (by simp) b (by simp [(List.mem_insertionSort r).mp hb])

/-- A stable sort keeps the rows of one key in the order they had. -/
theorem filter_insertionSort (r : α → α → Prop) [DecidableRel r] (key : α → ℚ) (k : ℚ)
    (hr : ∀ a b, key a = key b → r a b) (l : List α) :
    (l.insertionSort r).filter (fun a => key a = k) = l.filter (fun a => key a = k) := by
  have hpair : (l.filter (fun a => key a = k)).Pairwise r := by
    apply List.Pairwise.imp_of_mem _ (List.pairwise_of_forall (fun _ _ => trivial))
    intro a b ha hb _
    simp only [List.mem_filter, decide_eq_true_eq] at ha hb
    exact hr a b (by rw [ha.2, hb.2])
  have hsub := List.sublist_insertionSort hpair (List.filter_sublist l)
  have hsub' := hsub.filter (fun a => decide (key a = k))
  rw [List.filter_filter] at hsub'
  simp only [Bool.and_self] at hsub'
  have hlen : (l.filter (fun a => key a = k)).length
      = ((l.insertionSort r).filter (fun a => key a = k)).length :=
    ((List.perm_insertionSort r l).filter _).length_eq.symm
  exact (hsub'.eq_of_length hlen).symm

/-- Two lists in non-decreasing order of the key that hold, for each key, the
same rows in the same order are equal. -/
theorem eq_of_sorted_of_filter_eq (key : α → ℚ) (s t : List α)
    (hs : s.Pairwise (fun a b => key a ≤ key b)) (ht : t.Pairwise (fun a b => key a ≤ key b))
    (h : ∀ k, s.filter (fun a => key a = k) = t.filter (fun a => key a = k)) : s = t := by
  induction s generalizing t with
  | nil =>
    cases t with
    | nil => rfl
    | cons b t' =>
      have := h (key b)
      simp at this
  | cons a s' ih =>
    cases t with
    | nil =>
      have := h (key a)
      simp at this
    | cons b t' =>
      have hs' := List.pairwise_cons.mp hs
      have ht' := List.pairwise_cons.mp ht
      have hab : key b ≤ key a := by
        have hmem : a ∈ (b :: t').filter (fun x => key x = key a) := by
          rw [← h (key a)]
          simp
        have hmem' := (List.mem_filter.mp hmem).1
        rcases List.mem_cons.mp hmem' with rfl | hin
        · exact le_refl _
        · exact ht'.1 a hin
      have hba : key a ≤ key b := by
        have hmem : b ∈ (a :: s').filter (fun x => key x = key b) := by
          rw [h (key b)]
          simp
        have hmem' := (List.mem_filter.mp hmem).1
        rcases List.mem_cons.mp hmem' with rfl | hin
        · exact le_refl _
        · exact hs'.1 b hin
      have hkey : key a = key b := le_antisymm hba hab
      have hhead := h (key a)
      simp only [List.filter_cons, decide_True, if_true, hkey] at hhead
      have hhead' : a = b ∧ s'.filter (fun x => key x = key b)
          = t'.filter (fun x => key x = key b) := by
        simpa using hhead
      obtain ⟨rfl, htail⟩ := hhead'
      congr 1
      apply ih t' hs'.2 ht'.2
      intro k
      by_cases hk : key a = k
      · rw [← hk]
        exact htail
      · have := h k
        simpa [List.filter_cons, hk] using this

end SortLemmas

theorem rowLE_numeric (env : SortPlatform) (columnIndex : Nat) (direction : Int)
    (a b : List String)
    (ha : env.parseFloat (env.trim (a.getD columnIndex "")) ≠ none)
    (hb : env.parseFloat (env.trim (b.getD columnIndex "")) ≠ none) :
    rowLE env columnIndex direction a b ↔
      (numericKey env columnIndex a - numericKey env columnIndex b) * direction ≤ 0 := by
  obtain ⟨x, hx⟩ := Option.ne_none_iff_exists'.mp ha
  obtain ⟨y, hy⟩ := Option.ne_none_iff_exists'.mp hb
  simp only [rowLE, compareRows, numericKey, hx, hy, Option.getD_some]

theorem rowLE_ascending (env : SortPlatform) (columnIndex : Nat) (a b : List String)
    (ha : env.parseFloat (env.trim (a.getD columnIndex "")) ≠ none)
    (hb : env.parseFloat (env.trim (b.getD columnIndex "")) ≠ none) :
    rowLE env columnIndex 1 a b ↔ numericKey env columnIndex a ≤ numericKey env columnIndex b := by
  rw [rowLE_numeric env columnIndex 1 a b ha hb]
  simp

theorem rowLE_descending (env : SortPlatform) (columnIndex : Nat) (a b : List String)
    (ha : env.parseFloat (env.trim (a.getD columnIndex "")) ≠ none)
    (hb : env.parseFloat (env.trim (b.getD columnIndex "")) ≠ none) :
    rowLE env columnIndex (-1) a b ↔
      numericKey env columnIndex b ≤ numericKey env columnIndex a := by
  rw [rowLE_numeric env columnIndex (-1) a b ha hb]
  simp

/-- Sorting by the comparator with direction 1 is sorting by the number. -/
theorem insertionSort_ascending (env : SortPlatform) (columnIndex : Nat)
    (rows : List (List String)) (hnum : AllNumeric env columnIndex rows) :
    rows.insertionSort (rowLE env columnIndex 1)
      = rows.insertionSort
        (fun a b => numericKey env columnIndex a ≤ numericKey env columnIndex b) :=
  insertionSort_congr _ _ rows
    (fun a ha b hb => rowLE_ascending env columnIndex a b (hnum a ha).2 (hnum b hb).2)

/-- Sorting by the comparator with direction -1 is sorting by the number,
largest first. -/
theorem insertionSort_descending (env : SortPlatform) (columnIndex : Nat)
    (rows : List (List String)) (hnum : AllNumeric env columnIndex rows) :
    rows.insertionSort (rowLE env columnIndex (-1))
      = rows.insertionSort
        (fun a b => numericKey env columnIndex b ≤ numericKey env columnIndex a) :=
  insertionSort_congr _ _ rows
    (fun a ha b hb => rowLE_descending env columnIndex a b (hnum a ha).2 (hnum b hb).2)

theorem sorted_by_key (key : List String → ℚ) (rows : List (List String)) :
    (rows.insertionSort (fun a b => key a ≤ key b)).Pairwise (fun a b => key a ≤ key b) := by
  haveI : IsTotal (List String) (fun a b => key a ≤ key b) := ⟨fun a b => le_total _ _⟩
  haveI : IsTrans (List String) (fun a b => key a ≤ key b) := ⟨fun _ _ _ h1 h2 => le_trans h1 h2⟩
  exact List.sorted_insertionSort (fun a b => key a ≤ key b) rows

theorem sorted_by_key_desc (key : List String → ℚ) (rows : List (List String)) :
    (rows.insertionSort (fun a b => key b ≤ key a)).Pairwise (fun a b => key b ≤ key a) := by
  haveI : IsTotal (List String) (fun a b => key b ≤ key a) := ⟨fun a b => le_total _ _⟩
  haveI : IsTrans (List String) (fun a b => key b ≤ key a) := ⟨fun _ _ _ h1 h2 => le_trans h2 h1⟩
  exact List.sorted_insertionSort (fun a b => key b ≤ key a) rows

/-- Ascending, then descending, then ascending again gives what the first
ascending sort gave. -/
theorem ascending_descending_ascending (key : List String → ℚ) (rows : List (List String)) :
    ((rows.insertionSort (fun a b => key a ≤ key b)).insertionSort
        (fun a b => key b ≤ key a)).insertionSort (fun a b => key a ≤ key b)
      = rows.insertionSort (fun a b => key a ≤ key b) := by
  apply eq_of_sorted_of_filter_eq key _ _ (sorted_by_key key _) (sorted_by_key key _)
  intro k
  rw [filter_insertionSort _ key k (fun a b h => le_of_eq h),
    filter_insertionSort _ key k (fun a b h => le_of_eq h.symm)]

theorem allNumeric_of_perm (env : SortPlatform) (columnIndex : Nat)
    (rows rows' : List (List String)) (hp : rows'.Perm rows)
    (hnum : AllNumeric env columnIndex rows) : AllNumeric env columnIndex rows' :=
  fun row hrow => hnum row (hp.mem_iff.mp hrow)

theorem contains_iff_mem (tokens : List String) (t : String) :
    tokens.contains t = true ↔ t ∈ tokens := by
  simp [List.contains_eq_any_beq]

theorem mem_classListAdd_iff (tokens : List String) (s t : String) :
    s ∈ classListAdd tokens t ↔ s ∈ tokens ∨ s = t := by
  unfold classListAdd
  split_ifs with h
  · constructor
    · exact Or.inl
    · rintro (h1 | rfl)
      · exact h1
      · exact h
  · simp

theorem mem_classListRemove_iff (tokens : List String) (s t : String) :
    s ∈ classListRemove tokens t ↔ s ∈ tokens ∧ s ≠ t := by
  simp [classListRemove]

/-- The clicked header carries `sort-asc` after the call exactly when it did
not before. -/
theorem toggled_contains (tokens : List String) :
    (classListAdd (classListRemove (classListRemove tokens "sort-asc") "sort-desc")
      (if tokens.contains "sort-asc" then "sort-desc" else "sort-asc")).contains "sort-asc"
      = !tokens.contains "sort-asc" := by
  by_cases h : tokens.contains "sort-asc" = true
  · rw [h, if_pos rfl]
    simp only [Bool.not_true]
    rw [Bool.eq_false_iff, Ne, contains_iff_mem, mem_classListAdd_iff, mem_classListRemove_iff,
      mem_classListRemove_iff]
    rintro (⟨⟨_, hne⟩, _⟩ | heq)
    · exact hne rfl
    · exact absurd heq (by decide)
  · rw [Bool.not_eq_true] at h
    rw [h]
    simp only [Bool.false_eq_true, if_false, Bool.not_false]
    rw [contains_iff_mem, mem_classListAdd_iff]
    exact Or.inr rfl

/-- What `sortTable` returns on a table whose column parses as numbers. -/
theorem sortTable_numeric (env : SortPlatform) (table : Table) (header : Nat)
    (hh : header < table.headers.length) (hnum : AllNumeric env header table.rows) :
    ∃ t, sortTable env table header = some t ∧
      t.rows = table.rows.insertionSort (rowLE env header
        (if (table.headers.getD header []).contains "sort-asc" then -1 else 1)) ∧
      t.headers.length = table.headers.length ∧
      ((t.headers.getD header []).contains "sort-asc"
        = !(table.headers.getD header []).contains "sort-asc") := by
  have hcells : ¬ (2 ≤ table.rows.length ∧
      table.rows.any (fun row => row[header]? = none) = true) := by
    rintro ⟨_, hany⟩
    simp only [List.any_eq_true, decide_eq_true_eq] at hany
    obtain ⟨row, hrow, hnone⟩ := hany
    exact (hnum row hrow).1 hnone
  simp only [sortTable, if_neg hcells]
  refine ⟨_, rfl, rfl, by simp, ?_⟩
  have hget : ((table.headers.map
      (fun th => classListRemove (classListRemove th "sort-asc") "sort-desc")).set header
      (classListAdd ((table.headers.map
        (fun th => classListRemove (classListRemove th "sort-asc") "sort-desc")).getD header [])
        (if (table.headers.getD header []).contains "sort-asc" then "sort-desc"
          else "sort-asc"))).getD header []
      = classListAdd (classListRemove (classListRemove (table.headers.getD header [])
          "sort-asc") "sort-desc")
        (if (table.headers.getD header []).contains "sort-asc" then "sort-desc"
          else "sort-asc") := by
    simp [hh, List.getD_eq_getElem?_getD]
  rw [hget]
  exact toggled_contains _

/-- C7: on a table whose cells in the clicked column all parse as numbers and
whose clicked header is not marked `sort-asc`, a first `sortTable` leaves the
rows in non-decreasing numeric order, a second on the same header in
non-increasing numeric order, and a third leaves exactly the rows of the
first; after each call the rows are a permutation of the original rows. -/
theorem sortTable_toggles (env : SortPlatform) (table : Table) (header : Nat)
    (hh : header < table.headers.length)
    (hnot : (table.headers.getD header []).contains "sort-asc" = false)
    (hnum : AllNumeric env header table.rows) :
    ∃ t1 t2 t3,
      sortTable env table header = some t1 ∧
      sortTable env t1 header = some t2 ∧
      sortTable env t2 header = some t3 ∧
      t1.rows.Pairwise (fun a b => numericKey env header a ≤ numericKey env header b) ∧
      t2.rows.Pairwise (fun a b => numericKey env header b ≤ numericKey env header a) ∧
      t3.rows = t1.rows ∧
      t1.rows.Perm table.rows ∧ t2.rows.Perm table.rows ∧ t3.rows.Perm table.rows := by
  obtain ⟨t1, h1, hrows1, hlen1, hasc1⟩ := sortTable_numeric env table header hh hnum
  rw [hnot] at hrows1 hasc1
  simp only [Bool.false_eq_true, if_false, Bool.not_false] at hrows1 hasc1
  rw [insertionSort_ascending env header _ hnum] at hrows1
  have hperm1 : t1.rows.Perm table.rows := by
    rw [hrows1]
    exact List.perm_insertionSort _ _
  have hnum1 := allNumeric_of_perm env header _ _ hperm1 hnum
  obtain ⟨t2, h2, hrows2, hlen2, hasc2⟩ :=
    sortTable_numeric env t1 header (by rw [hlen1]; exact hh) hnum1
  rw [hasc1] at hrows2 hasc2
  simp only [if_true, Bool.not_true] at hrows2 hasc2
  rw [insertionSort_descending env header _ hnum1] at hrows2
  have hperm2 : t2.rows.Perm table.rows := by
    rw [hrows2]
    exact (List.perm_insertionSort _ _).trans hperm1
  have hnum2 := allNumeric_of_perm env header _ _ hperm2 hnum
  obtain ⟨t3, h3, hrows3, _, _⟩ :=
    sortTable_numeric env t2 header (by rw [hlen2, hlen1]; exact hh) hnum2
  rw [hasc2] at hrows3
  simp only [Bool.false_eq_true, if_false] at hrows3
  rw [insertionSort_ascending env header _ hnum2] at hrows3
  have h31 : t3.rows = t1.rows := by
    rw [hrows3, hrows2, hrows1]
    exact ascending_descending_ascending (numericKey env header) table.rows
  refine ⟨t1, t2, t3, h1, h2, h3, ?_, ?_, h31, hperm1, hperm2, ?_⟩
  · rw [hrows1]
    exact sorted_by_key (numericKey env header) table.rows
  · rw [hrows2]
    exact sorted_by_key_desc (numericKey env header) t1.rows
  · rw [h31]
    exact hperm1

/-- C7, at a table of four rows sorted on its second column, whose texts are
10, 9, 2 and 9. -/
theorem sortTable_toggles_witness :
    ∃ t1 t2 t3,
      sortTable examplePlatform scoreTable 1 = some t1 ∧
      sortTable examplePlatform t1 1 = some t2 ∧
      sortTable examplePlatform t2 1 = some t3 ∧
      t1.rows.Pairwise
        (fun a b => numericKey examplePlatform 1 a ≤ numericKey examplePlatform 1 b) ∧
      t2.rows.Pairwise
        (fun a b => numericKey examplePlatform 1 b ≤ numericKey examplePlatform 1 a) ∧
      t3.rows = t1.rows ∧
      t1.rows.Perm scoreTable.rows ∧ t2.rows.Perm scoreTable.rows ∧
      t3.rows.Perm scoreTable.rows :=
  sortTable_toggles examplePlatform scoreTable 1 (by decide) (by decide)
    (by unfold AllNumeric; decide)

/-- The table `scoreTable` after one, two and three clicks on its second
header: the scores ascending, descending (the rows of score 9 in the order
they had) and ascending again. -/
theorem sortTable_example :
    sortTable examplePlatform scoreTable 1
      = some ⟨[[], ["sort-asc"]],
          [["Chipo", "2"], ["Farai", "9"], ["Tendai", "9"], ["Rudo", "10"]]⟩ ∧
    sortTable examplePlatform
        ⟨[[], ["sort-asc"]], [["Chipo", "2"], ["Farai", "9"], ["Tendai", "9"], ["Rudo", "10"]]⟩ 1
      = some ⟨[[], ["sort-desc"]],
          [["Rudo", "10"], ["Farai", "9"], ["Tendai", "9"], ["Chipo", "2"]]⟩ ∧
    sortTable examplePlatform
        ⟨[[], ["sort-desc"]], [["Rudo", "10"], ["Farai", "9"], ["Tendai", "9"], ["Chipo", "2"]]⟩ 1
      = some ⟨[[], ["sort-asc"]],
          [["Chipo", "2"], ["Farai", "9"], ["Tendai", "9"], ["Rudo", "10"]]⟩ := by
  refine ⟨?_, ?_, ?_⟩ <;>
    simp [sortTable, scoreTable, examplePlatform, rowLE, compareRows,
      List.insertionSort, List.orderedInsert, classListAdd, classListRemove] <;>
    norm_num

/-! ## Theorems: `debounce` -/

section DebounceLemmas

variable {α : Type}

theorem timerDelay_eq (wait : Nat) (h : wait < 2 ^ 31) : timerDelay wait = wait := by
  unfold timerDelay
  have h32 : wait % 2 ^ 32 = wait := Nat.mod_eq_of_lt (by omega)
  rw [h32, if_pos h]

theorem advance_of_empty (now : Nat) (s : Debounced α) (h : s.pending = []) :
    advance now s = s := by
  simp [advance, h, runTimers]

theorem advance_not_due (now : Nat) (s : Debounced α) (tm : Timer α) (h : s.pending = [tm])
    (hdue : now < tm.ready) : advance now s = s := by
  have hn : ¬ tm.ready ≤ now := by omega
  simp [advance, h, runTimers, nextDue, hn]

theorem advance_due (now : Nat) (s : Debounced α) (tm : Timer α) (h : s.pending = [tm])
    (hdue : tm.ready ≤ now) :
    advance now s = { s with pending := [], invoked := s.invoked ++ [tm.args] } := by
  simp [advance, h, runTimers, nextDue, hdue, later, clearTimeout]

theorem atMostOneTimer_advance (now : Nat) (s : Debounced α) (h : AtMostOneTimer s) :
    AtMostOneTimer (advance now s) := by
  rcases h with h | ⟨tm, h, ht⟩
  · rw [advance_of_empty now s h]
    exact Or.inl h
  · by_cases hdue : tm.ready ≤ now
    · rw [advance_due now s tm h hdue]
      exact Or.inl rfl
    · rw [advance_not_due now s tm h (by omega)]
      exact Or.inr ⟨tm, h, ht⟩

/-- Once the event loop has had its turn at `now`, no timer ready by `now` is
left. -/
theorem nextDue_advance (now : Nat) (s : Debounced α) (h : AtMostOneTimer s) :
    nextDue now (advance now s).pending = none := by
  rcases h with h | ⟨tm, h, _⟩
  · rw [advance_of_empty now s h, h]
    rfl
  · by_cases hdue : tm.ready ≤ now
    · rw [advance_due now s tm h hdue]
      rfl
    · rw [advance_not_due now s tm h (by omega), h]
      simp [nextDue, hdue]

theorem pending_executedFunction (ready : Nat) (args : α) (s : Debounced α)
    (h : AtMostOneTimer s) :
    (executedFunction ready args s).pending = [⟨s.nextId, ready, args⟩] := by
  rcases h with h | ⟨tm, h, ht⟩
  · simp [executedFunction, h, clearTimeout]
  · simp [executedFunction, h, ht, clearTimeout]

theorem atMostOneTimer_executedFunction (ready : Nat) (args : α) (s : Debounced α)
    (h : AtMostOneTimer s) : AtMostOneTimer (executedFunction ready args s) :=
  Or.inr ⟨⟨s.nextId, ready, args⟩, pending_executedFunction ready args s h, rfl⟩

theorem atMostOneTimer_step (e : Event α) (s : Debounced α) (h : AtMostOneTimer s) :
    AtMostOneTimer (step s e) := by
  cases e with
  | call now ready args => exact atMostOneTimer_executedFunction ready args s h
  | turn now => exact atMostOneTimer_advance now s h

theorem atMostOneTimer_runEvents (events : List (Event α)) (s : Debounced α)
    (h : AtMostOneTimer s) : AtMostOneTimer (runEvents events s) := by
  induction events generalizing s with
  | nil => exact h
  | cons e rest ih =>
    simp only [runEvents, List.foldl_cons]
    exact ih _ (atMostOneTimer_step e s h)

theorem length_pending_le_one (s : Debounced α) (h : AtMostOneTimer s) :
    s.pending.length ≤ 1 := by
  rcases h with h | ⟨tm, h, _⟩ <;> simp [h]

theorem runEvents_append (earlier rest : List (Event α)) (s : Debounced α) :
    runEvents (earlier ++ rest) s = runEvents rest (runEvents earlier s) := by
  simp [runEvents, List.foldl_append]

/-- The arguments `func` has been invoked with after a schedule, from a state
with an empty queue. -/
theorem invoked_runEvents_of_empty (events : List (Event α)) (s : Debounced α)
    (h : s.pending = []) :
    (runEvents events s).invoked = s.invoked ++ invokedArgs events ∧
    ∀ (s' : Debounced α) (tm : Timer α), s'.pending = [tm] → s'.timeout = some tm.id →
      (runEvents events s').invoked
        = s'.invoked ++ (if runsBeforeNextCall tm.ready events then [tm.args] else [])
          ++ invokedArgs events := by
  induction events generalizing s with
  | nil =>
    refine ⟨by simp [runEvents, invokedArgs], fun s' tm _ _ => ?_⟩
    simp [runEvents, invokedArgs, runsBeforeNextCall]
  | cons e rest ih =>
    cases e with
    | call now ready args =>
      have hstep : ∀ (u : Debounced α), AtMostOneTimer u →
          (runEvents (Event.call now ready args :: rest) u).invoked
            = u.invoked ++ invokedArgs (Event.call now ready args :: rest) := by
        intro u hu
        have hp := pending_executedFunction ready args u hu
        have := (ih s h).2 (executedFunction ready args u) ⟨u.nextId, ready, args⟩ hp rfl
        simp only [runEvents, List.foldl_cons, step] at this ⊢
        rw [this]
        simp [invokedArgs, executedFunction]
      refine ⟨hstep s (Or.inl h), fun s' tm hp ht => ?_⟩
      rw [hstep s' (Or.inr ⟨tm, hp, ht⟩)]
      simp [runsBeforeNextCall]
    | turn now =>
      constructor
      · have := (ih s h).1
        simp only [runEvents, List.foldl_cons, step, advance_of_empty now s h] at this ⊢
        rw [this]
        simp [invokedArgs]
      · intro s' tm hp ht
        by_cases hdue : tm.ready ≤ now
        · have hadv := advance_due now s' tm hp hdue
          have := (ih (advance now s') (by rw [hadv])).1
          simp only [runEvents, List.foldl_cons, step] at this ⊢
          rw [this, hadv]
          simp [invokedArgs, runsBeforeNextCall, hdue]
        · have hadv := advance_not_due now s' tm hp (by omega)
          have := (ih s h).2 s' tm hp ht
          simp only [runEvents, List.foldl_cons, step, hadv] at this ⊢
          rw [this]
          simp [invokedArgs, runsBeforeNextCall, hdue]

theorem invoked_runEvents (events : List (Event α)) :
    (runEvents events (debounce : Debounced α)).invoked = invokedArgs events := by
  have := (invoked_runEvents_of_empty events (debounce : Debounced α) rfl).1
  simpa [debounce] using this

theorem mem_of_nextCallTime (events : List (Event α)) (next : Nat)
    (h : nextCallTime events = some next) : ∃ e ∈ events, e.time = next := by
  induction events with
  | nil => simp [nextCallTime] at h
  | cons e rest ih =>
    cases e with
    | call now ready args =>
      simp only [nextCallTime, Option.some.injEq] at h
      exact ⟨Event.call now ready args, by simp, h⟩
    | turn now =>
      obtain ⟨x, hx, hxt⟩ := ih h
      exact ⟨x, by simp [hx], hxt⟩

/-- A timer that is not ready when the next call comes has not been run by
then. -/
theorem not_runs_of_next_call_early (ready : Nat) (events : List (Event α)) (next : Nat)
    (hsorted : events.Pairwise (fun a b => a.time ≤ b.time))
    (hnext : nextCallTime events = some next) (hearly : next < ready) :
    runsBeforeNextCall ready events = false := by
  induction events with
  | nil => rfl
  | cons e rest ih =>
    cases e with
    | call now r args => rfl
    | turn now =>
      have hs := List.pairwise_cons.mp hsorted
      obtain ⟨x, hx, hxt⟩ := mem_of_nextCallTime rest next hnext
      have hle : now ≤ next := by
        have := hs.1 x hx
        rw [hxt] at this
        exact this
      have hn : ¬ ready ≤ now := by omega
      simp only [runsBeforeNextCall, hn, decide_False, Bool.false_or]
      exact ih hs.2 hnext

theorem schedule_tail (wait : Nat) (e : Event α) (rest : List (Event α))
    (h : Schedule wait (e :: rest)) : Schedule wait rest :=
  ⟨(List.pairwise_cons.mp h.1).2, fun now ready args hm => h.2 now ready args (by simp [hm])⟩

theorem invokedArgs_of_prompt (wait : Nat) (events : List (Event α)) (hwait : wait < 2 ^ 31)
    (hsched : Schedule wait events) (hprompt : Prompt wait events) :
    invokedArgs events = settledCalls wait events := by
  induction events with
  | nil => rfl
  | cons e rest ih =>
    have htail := schedule_tail wait e rest hsched
    cases e with
    | turn now => exact ih htail hprompt
    | call now ready args =>
      have hready : now + wait ≤ ready := by
        have := hsched.2 now ready args (by simp)
        rwa [timerDelay_eq wait hwait] at this
      simp only [invokedArgs, settledCalls, ih htail hprompt.2]
      congr 1
      cases hn : nextCallTime rest with
      | none =>
        have := hprompt.1 (fun next hnext => by rw [hn] at hnext; cases hnext)
        simp [this]
      | some next =>
        by_cases hlate : now + wait ≤ next
        · have := hprompt.1 (fun n hnext => by
            rw [hn] at hnext
            cases hnext
            exact hlate)
          simp [this, hlate]
        · have := not_runs_of_next_call_early ready rest next
            (List.pairwise_cons.mp hsched.1).2 hn (by omega)
          simp [this, hlate]

theorem invokedArgs_of_turns (events : List (Event α)) (h : nextCallTime events = none) :
    invokedArgs events = [] := by
  induction events with
  | nil => rfl
  | cons e rest ih =>
    cases e with
    | call now ready args => simp [nextCallTime] at h
    | turn now => exact ih h

theorem nextCallTime_append_call (before : List (Event α)) (now ready : Nat) (args : α)
    (rest : List (Event α)) :
    ∃ next, nextCallTime (before ++ Event.call now ready args :: rest) = some next := by
  induction before with
  | nil => exact ⟨now, rfl⟩
  | cons e more ih =>
    cases e with
    | call n r a => exact ⟨n, rfl⟩
    | turn n => exact ih

theorem invokedArgs_of_burst (wait : Nat) (before : List (Event α)) (now ready : Nat) (args : α)
    (rest : List (Event α)) (hwait : wait < 2 ^ 31)
    (hsched : Schedule wait (before ++ Event.call now ready args :: rest))
    (hburst : IsBurst wait (before ++ Event.call now ready args :: rest))
    (hlast : nextCallTime rest = none) (hruns : runsBeforeNextCall ready rest = true) :
    invokedArgs (before ++ Event.call now ready args :: rest) = [args] := by
  induction before with
  | nil => simp [invokedArgs, hruns, invokedArgs_of_turns rest hlast]
  | cons e more ih =>
    have htail := schedule_tail wait e _ hsched
    cases e with
    | turn n => exact ih htail hburst
    | call n r a =>
      obtain ⟨next, hnext⟩ := nextCallTime_append_call more now ready args rest
      have hr : n + wait ≤ r := by
        have := hsched.2 n r a (by simp)
        rwa [timerDelay_eq wait hwait] at this
      have hlt := hburst.1 next hnext
      have := not_runs_of_next_call_early r _ next (List.pairwise_cons.mp hsched.1).2 hnext
        (by omega)
      simp only [List.cons_append, invokedArgs, this, Bool.false_eq_true, if_false,
        List.nil_append]
      exact ih htail hburst.2

end DebounceLemmas

theorem schedule_busySchedule : Schedule 50 busySchedule := by
  refine ⟨by simp [busySchedule, Event.time], fun now ready args hm => ?_⟩
  have h50 : timerDelay 50 = 50 := timerDelay_eq 50 (by norm_num)
  simp only [busySchedule, List.mem_cons, Event.call.injEq, List.mem_singleton,
    List.not_mem_nil, or_false] at hm
  rcases hm with ⟨rfl, rfl, _⟩ | ⟨rfl, rfl, _⟩ | hm
  · rw [h50]
  · rw [h50]
  · cases hm

theorem schedule_typingSchedule : Schedule 1000 typingSchedule := by
  refine ⟨by simp [typingSchedule, Event.time], fun now ready args hm => ?_⟩
  have hd : timerDelay 1000 = 1000 := timerDelay_eq 1000 (by norm_num)
  simp only [typingSchedule, List.mem_cons, Event.call.injEq, List.mem_singleton,
    List.not_mem_nil, or_false] at hm
  rw [hd]
  rcases hm with ⟨rfl, rfl, _⟩ | ⟨rfl, rfl, _⟩ | hm | ⟨rfl, rfl, _⟩ | hm | hm | hm |
    ⟨rfl, rfl, _⟩ | hm | hm <;> first | omega | cases hm

theorem schedule_burstSchedule : Schedule 1000 burstSchedule := by
  refine ⟨by simp [burstSchedule, Event.time], fun now ready args hm => ?_⟩
  have hd : timerDelay 1000 = 1000 := timerDelay_eq 1000 (by norm_num)
  simp only [burstSchedule, List.mem_cons, Event.call.injEq, List.mem_singleton,
    List.not_mem_nil, or_false] at hm
  rw [hd]
  rcases hm with ⟨rfl, rfl, _⟩ | ⟨rfl, rfl, _⟩ | hm | ⟨rfl, rfl, _⟩ | hm | hm | hm <;>
    first | omega | cases hm

/-- C9 (as stated, refuted): `debounce(func, 50)` called with `a` and, 80 ms
later in the same script, with `ab`: the first call is not followed by another
within 50 ms, yet its timer is cleared by the second call before the event
loop has had a turn, and `func` is invoked with `ab` only. -/
theorem debounce_busy_loop :
    Schedule 50 busySchedule ∧
    settledCalls 50 busySchedule = ["a", "ab"] ∧
    (runEvents busySchedule debounce).invoked = ["ab"] ∧
    (runEvents busySchedule debounce).invoked ≠ settledCalls 50 busySchedule :=
  ⟨schedule_busySchedule, by decide, by decide, by decide⟩

/-- C9 (amended): for `debounce(func, wait)` with `wait` below `2 ^ 31` and every
schedule of calls and turns of the event loop, at most one timer is pending at
any moment; right after each call the queue holds exactly the timer of that
call; `func` is invoked exactly once, with that call's arguments and in order,
for each call whose timer gets a turn of the event loop, at or after it is
ready, before the next call, and for no other call; the timer of a call
followed by another call less than `wait` later gets no such turn; when the
event loop is prompt, `func` is invoked exactly for the calls that are not
followed by another call less than `wait` later; and a burst, once the event
loop has a turn after the last timer is ready, invokes `func` exactly once,
with the arguments of the last call. -/
theorem debounce_spec {α : Type} (wait : Nat) (events : List (Event α))
    (hwait : wait < 2 ^ 31) (hsched : Schedule wait events) :
    (∀ earlier, earlier <+: events →
      (runEvents earlier (debounce : Debounced α)).pending.length ≤ 1) ∧
    (∀ earlier now ready args, (earlier ++ [Event.call now ready args]) <+: events →
      (runEvents (earlier ++ [Event.call now ready args])
        (debounce : Debounced α)).pending.map (fun tm => (tm.ready, tm.args))
        = [(ready, args)]) ∧
    (runEvents events (debounce : Debounced α)).invoked = invokedArgs events ∧
    (∀ before now ready args rest next,
      events = before ++ Event.call now ready args :: rest →
      nextCallTime rest = some next → next < now + wait →
      runsBeforeNextCall ready rest = false) ∧
    (Prompt wait events →
      (runEvents events (debounce : Debounced α)).invoked = settledCalls wait events) ∧
    (∀ before now ready args rest,
      events = before ++ Event.call now ready args :: rest →
      IsBurst wait events → nextCallTime rest = none →
      runsBeforeNextCall ready rest = true →
      (runEvents events (debounce : Debounced α)).invoked = [args]) := by
  refine ⟨fun earlier _ => ?_, fun earlier now ready args _ => ?_, invoked_runEvents events,
    fun before now ready args rest next hev hnext hlt => ?_, fun hprompt => ?_,
    fun before now ready args rest hev hburst hlast hruns => ?_⟩
  · exact length_pending_le_one _
      (atMostOneTimer_runEvents earlier (debounce : Debounced α) (Or.inl rfl))
  · rw [runEvents_append]
    have hinv := atMostOneTimer_runEvents earlier (debounce : Debounced α) (Or.inl rfl)
    simp only [runEvents, List.foldl_cons, List.foldl_nil, step]
    have hp := pending_executedFunction ready args (List.foldl step debounce earlier) hinv
    rw [hp]
    rfl
  · have hready : now + wait ≤ ready := by
      have := hsched.2 now ready args (by rw [hev]; simp)
      rwa [timerDelay_eq wait hwait] at this
    have hsorted : rest.Pairwise (fun a b => a.time ≤ b.time) := by
      have h1 := hsched.1
      rw [hev] at h1
      exact (List.pairwise_cons.mp (List.pairwise_append.mp h1).2.1).2
    exact not_runs_of_next_call_early ready rest next hsorted hnext (by omega)
  · rw [invoked_runEvents, invokedArgs_of_prompt wait events hwait hsched hprompt]
  · rw [invoked_runEvents, hev]
    rw [hev] at hsched hburst
    exact invokedArgs_of_burst wait before now ready args rest hwait hsched hburst hlast hruns

/-- C9 (amended), at four input events debounced by 1000 ms with a prompt event
loop, and at the burst of the first three. -/
theorem debounce_spec_witness :
    (runEvents typingSchedule debounce).invoked = ["abc", "abcd"] ∧
    (runEvents burstSchedule debounce).invoked = ["abc"] :=
  ⟨((debounce_spec 1000 typingSchedule (by norm_num) schedule_typingSchedule).2.2.2.2.1
      (by simp [Prompt, typingSchedule, nextCallTime, runsBeforeNextCall])).trans (by decide),
    (debounce_spec 1000 burstSchedule (by norm_num) schedule_burstSchedule).2.2.2.2.2
      [.call 0 1000 "a", .call 300 1300 "ab", .turn 500] 900 1904 "abc"
      [.turn 1000, .turn 1500, .turn 2000] rfl
      (by simp [IsBurst, burstSchedule, nextCallTime]) rfl (by decide)⟩

end MyInstructor
